import Mathlib

/-!
# paramaker

A shallow embedding of `paramaker.js` and proofs about its functions
`preprocessData` (with `htmlEncode`), `generateUrl`, `readParamsFromFile` and
`main`.

JavaScript strings are sequences of UTF-16 code units; they are embedded as
lists of natural numbers, one number per code unit. What the engine and the
packages supply and the source does not fix is an argument of the embedding:
the uppercase table behind the `i` flag, the xmlbuilder package, the file
system and the conversion of a string to a number.
-/

namespace Paramaker

/-! ## Strings -/

/-- A JavaScript string: its UTF-16 code units in order. -/
abbrev JSString := List Nat

/-- The UTF-16 code units of one Unicode scalar value. -/
def utf16 (c : Nat) : List Nat :=
  if c < 0x10000 then [c]
  else [0xD800 + (c - 0x10000) / 0x400, 0xDC00 + (c - 0x10000) % 0x400]

/-- A string literal of the source, as a JavaScript string. -/
def str (s : String) : JSString :=
  s.toList.flatMap fun ch => utf16 ch.toNat

/-- Every element is a 16-bit code unit. -/
def WellFormed (s : JSString) : Prop :=
  ∀ c ∈ s, c < 0x10000

/-- The code unit is a leading (high) surrogate. -/
def isLeadSurrogate (c : Nat) : Bool :=
  decide (0xD800 ≤ c ∧ c ≤ 0xDBFF)

/-- The code unit is a trailing (low) surrogate. -/
def isTrailSurrogate (c : Nat) : Bool :=
  decide (0xDC00 ≤ c ∧ c ≤ 0xDFFF)

/-- The string holds no surrogate code unit at all. -/
def NoSurrogates (s : JSString) : Prop :=
  ∀ c ∈ s, ¬ (0xD800 ≤ c ∧ c ≤ 0xDFFF)

/-- Decimal digits of a number, as `Number.prototype.toString` prints a
non-negative integer. -/
def decimal (n : Nat) : JSString :=
  (Nat.toDigits 10 n).map Char.toNat

/-- `Array.prototype.join` on an array of strings. -/
def join : List JSString → JSString → JSString
  | [], _ => []
  | [x], _ => x
  | x :: y :: rest, sep => x ++ sep ++ join (y :: rest) sep

/-- `String.prototype.includes`: `sub` occurs in `s` as a contiguous run. -/
def includes (s sub : JSString) : Bool :=
  s.tails.any fun t => sub.isPrefixOf t

/-- What a JavaScript exception carries, as far as this program can tell. -/
inductive JSError where
  | uriError
  | xmlError
  | error (message : JSString)
  deriving DecidableEq, Repr

/-! ## The data encoder -/

/-- The characters `encodeURIComponent` copies unchanged: ASCII letters,
digits and `- _ . ! ~ * ' ( )`. -/
def isUnreserved (c : Nat) : Bool :=
  decide ((0x41 ≤ c ∧ c ≤ 0x5A) ∨ (0x61 ≤ c ∧ c ≤ 0x7A) ∨ (0x30 ≤ c ∧ c ≤ 0x39)
    ∨ c ∈ [0x2D, 0x5F, 0x2E, 0x21, 0x7E, 0x2A, 0x27, 0x28, 0x29])

/-- The octets of the UTF-8 encoding of a code point. -/
def utf8 (cp : Nat) : List Nat :=
  if cp < 0x80 then [cp]
  else if cp < 0x800 then [0xC0 + cp / 0x40, 0x80 + cp % 0x40]
  else if cp < 0x10000 then [0xE0 + cp / 0x1000, 0x80 + cp / 0x40 % 0x40, 0x80 + cp % 0x40]
  else [0xF0 + cp / 0x40000, 0x80 + cp / 0x1000 % 0x40, 0x80 + cp / 0x40 % 0x40,
    0x80 + cp % 0x40]

/-- One uppercase hexadecimal digit. -/
def hexDigit (n : Nat) : Nat :=
  if n < 10 then 0x30 + n else 0x41 + (n - 10)

/-- The escape of one octet: `%` and two uppercase hexadecimal digits. -/
def percentOctet (octet : Nat) : JSString :=
  [0x25, hexDigit (octet / 16), hexDigit (octet % 16)]

/-- The escape of a code point: the escapes of its UTF-8 octets. -/
def percentCodePoint (cp : Nat) : JSString :=
  (utf8 cp).flatMap percentOctet

/-- The code point of a surrogate pair. -/
def surrogatePairToCodePoint (lead trail : Nat) : Nat :=
  (lead - 0xD800) * 0x400 + (trail - 0xDC00) + 0x10000

/-- The built-in `encodeURIComponent` (the abstract operation Encode with no
extra unescaped characters): an unreserved code unit is copied, anything else
is read as a code point and escaped, and a surrogate that is not part of a
pair throws a URIError. -/
def encodeURIComponent : JSString → Except JSError JSString
  | [] => .ok []
  | c :: rest =>
    if isUnreserved c then
      (encodeURIComponent rest).map fun r => c :: r
    else if isTrailSurrogate c then
      .error .uriError
    else if isLeadSurrogate c then
      match rest with
      | [] => .error .uriError
      | d :: rest2 =>
        if isTrailSurrogate d then
          (encodeURIComponent rest2).map fun r =>
            percentCodePoint (surrogatePairToCodePoint c d) ++ r
        else .error .uriError
    else
      (encodeURIComponent rest).map fun r => percentCodePoint c ++ r

/-- Runs of the Unicode 14.0 uppercase mapping inside the Basic Multilingual
Plane whose result is a single code unit: `(lo, hi, target, step)` maps every
`lo + k * step ≤ hi` to `target + k * step`. -/
def upperRuns : List (Nat × Nat × Nat × Nat) :=
  [
    (0x61, 0x7A, 0x41, 1), (0xB5, 0xB5, 0x39C, 1), (0xE0, 0xF6, 0xC0, 1), (0xF8, 0xFE, 0xD8, 1),
    (0xFF, 0xFF, 0x178, 1), (0x101, 0x12F, 0x100, 2), (0x131, 0x131, 0x49, 1),
    (0x133, 0x137, 0x132, 2), (0x13A, 0x148, 0x139, 2), (0x14B, 0x177, 0x14A, 2),
    (0x17A, 0x17E, 0x179, 2), (0x17F, 0x17F, 0x53, 1), (0x180, 0x180, 0x243, 1),
    (0x183, 0x185, 0x182, 2), (0x188, 0x188, 0x187, 1), (0x18C, 0x18C, 0x18B, 1),
    (0x192, 0x192, 0x191, 1), (0x195, 0x195, 0x1F6, 1), (0x199, 0x199, 0x198, 1),
    (0x19A, 0x19A, 0x23D, 1), (0x19E, 0x19E, 0x220, 1), (0x1A1, 0x1A5, 0x1A0, 2),
    (0x1A8, 0x1A8, 0x1A7, 1), (0x1AD, 0x1AD, 0x1AC, 1), (0x1B0, 0x1B0, 0x1AF, 1),
    (0x1B4, 0x1B6, 0x1B3, 2), (0x1B9, 0x1B9, 0x1B8, 1), (0x1BD, 0x1BD, 0x1BC, 1),
    (0x1BF, 0x1BF, 0x1F7, 1), (0x1C5, 0x1C5, 0x1C4, 1), (0x1C6, 0x1C6, 0x1C4, 1),
    (0x1C8, 0x1C8, 0x1C7, 1), (0x1C9, 0x1C9, 0x1C7, 1), (0x1CB, 0x1CB, 0x1CA, 1),
    (0x1CC, 0x1CC, 0x1CA, 1), (0x1CE, 0x1DC, 0x1CD, 2), (0x1DD, 0x1DD, 0x18E, 1),
    (0x1DF, 0x1EF, 0x1DE, 2), (0x1F2, 0x1F2, 0x1F1, 1), (0x1F3, 0x1F3, 0x1F1, 1),
    (0x1F5, 0x1F5, 0x1F4, 1), (0x1F9, 0x21F, 0x1F8, 2), (0x223, 0x233, 0x222, 2),
    (0x23C, 0x23C, 0x23B, 1), (0x23F, 0x240, 0x2C7E, 1), (0x242, 0x242, 0x241, 1),
    (0x247, 0x24F, 0x246, 2), (0x250, 0x250, 0x2C6F, 1), (0x251, 0x251, 0x2C6D, 1),
    (0x252, 0x252, 0x2C70, 1), (0x253, 0x253, 0x181, 1), (0x254, 0x254, 0x186, 1),
    (0x256, 0x257, 0x189, 1), (0x259, 0x259, 0x18F, 1), (0x25B, 0x25B, 0x190, 1),
    (0x25C, 0x25C, 0xA7AB, 1), (0x260, 0x260, 0x193, 1), (0x261, 0x261, 0xA7AC, 1),
    (0x263, 0x263, 0x194, 1), (0x265, 0x265, 0xA78D, 1), (0x266, 0x266, 0xA7AA, 1),
    (0x268, 0x268, 0x197, 1), (0x269, 0x269, 0x196, 1), (0x26A, 0x26A, 0xA7AE, 1),
    (0x26B, 0x26B, 0x2C62, 1), (0x26C, 0x26C, 0xA7AD, 1), (0x26F, 0x26F, 0x19C, 1),
    (0x271, 0x271, 0x2C6E, 1), (0x272, 0x272, 0x19D, 1), (0x275, 0x275, 0x19F, 1),
    (0x27D, 0x27D, 0x2C64, 1), (0x280, 0x280, 0x1A6, 1), (0x282, 0x282, 0xA7C5, 1),
    (0x283, 0x283, 0x1A9, 1), (0x287, 0x287, 0xA7B1, 1), (0x288, 0x288, 0x1AE, 1),
    (0x289, 0x289, 0x244, 1), (0x28A, 0x28B, 0x1B1, 1), (0x28C, 0x28C, 0x245, 1),
    (0x292, 0x292, 0x1B7, 1), (0x29D, 0x29D, 0xA7B2, 1), (0x29E, 0x29E, 0xA7B0, 1),
    (0x345, 0x345, 0x399, 1), (0x371, 0x373, 0x370, 2), (0x377, 0x377, 0x376, 1),
    (0x37B, 0x37D, 0x3FD, 1), (0x3AC, 0x3AC, 0x386, 1), (0x3AD, 0x3AF, 0x388, 1),
    (0x3B1, 0x3C1, 0x391, 1), (0x3C2, 0x3C2, 0x3A3, 1), (0x3C3, 0x3CB, 0x3A3, 1),
    (0x3CC, 0x3CC, 0x38C, 1), (0x3CD, 0x3CE, 0x38E, 1), (0x3D0, 0x3D0, 0x392, 1),
    (0x3D1, 0x3D1, 0x398, 1), (0x3D5, 0x3D5, 0x3A6, 1), (0x3D6, 0x3D6, 0x3A0, 1),
    (0x3D7, 0x3D7, 0x3CF, 1), (0x3D9, 0x3EF, 0x3D8, 2), (0x3F0, 0x3F0, 0x39A, 1),
    (0x3F1, 0x3F1, 0x3A1, 1), (0x3F2, 0x3F2, 0x3F9, 1), (0x3F3, 0x3F3, 0x37F, 1),
    (0x3F5, 0x3F5, 0x395, 1), (0x3F8, 0x3F8, 0x3F7, 1), (0x3FB, 0x3FB, 0x3FA, 1),
    (0x430, 0x44F, 0x410, 1), (0x450, 0x45F, 0x400, 1), (0x461, 0x481, 0x460, 2),
    (0x48B, 0x4BF, 0x48A, 2), (0x4C2, 0x4CE, 0x4C1, 2), (0x4CF, 0x4CF, 0x4C0, 1),
    (0x4D1, 0x52F, 0x4D0, 2), (0x561, 0x586, 0x531, 1), (0x10D0, 0x10FA, 0x1C90, 1),
    (0x10FD, 0x10FF, 0x1CBD, 1), (0x13F8, 0x13FD, 0x13F0, 1), (0x1C80, 0x1C80, 0x412, 1),
    (0x1C81, 0x1C81, 0x414, 1), (0x1C82, 0x1C82, 0x41E, 1), (0x1C83, 0x1C84, 0x421, 1),
    (0x1C85, 0x1C85, 0x422, 1), (0x1C86, 0x1C86, 0x42A, 1), (0x1C87, 0x1C87, 0x462, 1),
    (0x1C88, 0x1C88, 0xA64A, 1), (0x1D79, 0x1D79, 0xA77D, 1), (0x1D7D, 0x1D7D, 0x2C63, 1),
    (0x1D8E, 0x1D8E, 0xA7C6, 1), (0x1E01, 0x1E95, 0x1E00, 2), (0x1E9B, 0x1E9B, 0x1E60, 1),
    (0x1EA1, 0x1EFF, 0x1EA0, 2), (0x1F00, 0x1F07, 0x1F08, 1), (0x1F10, 0x1F15, 0x1F18, 1),
    (0x1F20, 0x1F27, 0x1F28, 1), (0x1F30, 0x1F37, 0x1F38, 1), (0x1F40, 0x1F45, 0x1F48, 1),
    (0x1F51, 0x1F57, 0x1F59, 2), (0x1F60, 0x1F67, 0x1F68, 1), (0x1F70, 0x1F71, 0x1FBA, 1),
    (0x1F72, 0x1F75, 0x1FC8, 1), (0x1F76, 0x1F77, 0x1FDA, 1), (0x1F78, 0x1F79, 0x1FF8, 1),
    (0x1F7A, 0x1F7B, 0x1FEA, 1), (0x1F7C, 0x1F7D, 0x1FFA, 1), (0x1FB0, 0x1FB1, 0x1FB8, 1),
    (0x1FBE, 0x1FBE, 0x399, 1), (0x1FD0, 0x1FD1, 0x1FD8, 1), (0x1FE0, 0x1FE1, 0x1FE8, 1),
    (0x1FE5, 0x1FE5, 0x1FEC, 1), (0x214E, 0x214E, 0x2132, 1), (0x2170, 0x217F, 0x2160, 1),
    (0x2184, 0x2184, 0x2183, 1), (0x24D0, 0x24E9, 0x24B6, 1), (0x2C30, 0x2C5F, 0x2C00, 1),
    (0x2C61, 0x2C61, 0x2C60, 1), (0x2C65, 0x2C65, 0x23A, 1), (0x2C66, 0x2C66, 0x23E, 1),
    (0x2C68, 0x2C6C, 0x2C67, 2), (0x2C73, 0x2C73, 0x2C72, 1), (0x2C76, 0x2C76, 0x2C75, 1),
    (0x2C81, 0x2CE3, 0x2C80, 2), (0x2CEC, 0x2CEE, 0x2CEB, 2), (0x2CF3, 0x2CF3, 0x2CF2, 1),
    (0x2D00, 0x2D25, 0x10A0, 1), (0x2D27, 0x2D27, 0x10C7, 1), (0x2D2D, 0x2D2D, 0x10CD, 1),
    (0xA641, 0xA66D, 0xA640, 2), (0xA681, 0xA69B, 0xA680, 2), (0xA723, 0xA72F, 0xA722, 2),
    (0xA733, 0xA76F, 0xA732, 2), (0xA77A, 0xA77C, 0xA779, 2), (0xA77F, 0xA787, 0xA77E, 2),
    (0xA78C, 0xA78C, 0xA78B, 1), (0xA791, 0xA793, 0xA790, 2), (0xA794, 0xA794, 0xA7C4, 1),
    (0xA797, 0xA7A9, 0xA796, 2), (0xA7B5, 0xA7C3, 0xA7B4, 2), (0xA7C8, 0xA7CA, 0xA7C7, 2),
    (0xA7D1, 0xA7D1, 0xA7D0, 1), (0xA7D7, 0xA7D9, 0xA7D6, 2), (0xA7F6, 0xA7F6, 0xA7F5, 1),
    (0xAB53, 0xAB53, 0xA7B3, 1), (0xAB70, 0xABBF, 0x13A0, 1), (0xFF41, 0xFF5A, 0xFF21, 1)
  ]

/-- Code units whose Unicode 14.0 uppercase form is more than one code unit
long (SpecialCasing), with that form. -/
def upperSpecial : List (Nat × List Nat) :=
  [
    (0xDF, [0x53, 0x53]), (0x149, [0x2BC, 0x4E]), (0x1F0, [0x4A, 0x30C]),
    (0x390, [0x399, 0x308, 0x301]), (0x3B0, [0x3A5, 0x308, 0x301]), (0x587, [0x535, 0x552]),
    (0x1E96, [0x48, 0x331]), (0x1E97, [0x54, 0x308]), (0x1E98, [0x57, 0x30A]),
    (0x1E99, [0x59, 0x30A]), (0x1E9A, [0x41, 0x2BE]), (0x1F50, [0x3A5, 0x313]),
    (0x1F52, [0x3A5, 0x313, 0x300]), (0x1F54, [0x3A5, 0x313, 0x301]),
    (0x1F56, [0x3A5, 0x313, 0x342]), (0x1F80, [0x1F08, 0x399]), (0x1F81, [0x1F09, 0x399]),
    (0x1F82, [0x1F0A, 0x399]), (0x1F83, [0x1F0B, 0x399]), (0x1F84, [0x1F0C, 0x399]),
    (0x1F85, [0x1F0D, 0x399]), (0x1F86, [0x1F0E, 0x399]), (0x1F87, [0x1F0F, 0x399]),
    (0x1F88, [0x1F08, 0x399]), (0x1F89, [0x1F09, 0x399]), (0x1F8A, [0x1F0A, 0x399]),
    (0x1F8B, [0x1F0B, 0x399]), (0x1F8C, [0x1F0C, 0x399]), (0x1F8D, [0x1F0D, 0x399]),
    (0x1F8E, [0x1F0E, 0x399]), (0x1F8F, [0x1F0F, 0x399]), (0x1F90, [0x1F28, 0x399]),
    (0x1F91, [0x1F29, 0x399]), (0x1F92, [0x1F2A, 0x399]), (0x1F93, [0x1F2B, 0x399]),
    (0x1F94, [0x1F2C, 0x399]), (0x1F95, [0x1F2D, 0x399]), (0x1F96, [0x1F2E, 0x399]),
    (0x1F97, [0x1F2F, 0x399]), (0x1F98, [0x1F28, 0x399]), (0x1F99, [0x1F29, 0x399]),
    (0x1F9A, [0x1F2A, 0x399]), (0x1F9B, [0x1F2B, 0x399]), (0x1F9C, [0x1F2C, 0x399]),
    (0x1F9D, [0x1F2D, 0x399]), (0x1F9E, [0x1F2E, 0x399]), (0x1F9F, [0x1F2F, 0x399]),
    (0x1FA0, [0x1F68, 0x399]), (0x1FA1, [0x1F69, 0x399]), (0x1FA2, [0x1F6A, 0x399]),
    (0x1FA3, [0x1F6B, 0x399]), (0x1FA4, [0x1F6C, 0x399]), (0x1FA5, [0x1F6D, 0x399]),
    (0x1FA6, [0x1F6E, 0x399]), (0x1FA7, [0x1F6F, 0x399]), (0x1FA8, [0x1F68, 0x399]),
    (0x1FA9, [0x1F69, 0x399]), (0x1FAA, [0x1F6A, 0x399]), (0x1FAB, [0x1F6B, 0x399]),
    (0x1FAC, [0x1F6C, 0x399]), (0x1FAD, [0x1F6D, 0x399]), (0x1FAE, [0x1F6E, 0x399]),
    (0x1FAF, [0x1F6F, 0x399]), (0x1FB2, [0x1FBA, 0x399]), (0x1FB3, [0x391, 0x399]),
    (0x1FB4, [0x386, 0x399]), (0x1FB6, [0x391, 0x342]), (0x1FB7, [0x391, 0x342, 0x399]),
    (0x1FBC, [0x391, 0x399]), (0x1FC2, [0x1FCA, 0x399]), (0x1FC3, [0x397, 0x399]),
    (0x1FC4, [0x389, 0x399]), (0x1FC6, [0x397, 0x342]), (0x1FC7, [0x397, 0x342, 0x399]),
    (0x1FCC, [0x397, 0x399]), (0x1FD2, [0x399, 0x308, 0x300]), (0x1FD3, [0x399, 0x308, 0x301]),
    (0x1FD6, [0x399, 0x342]), (0x1FD7, [0x399, 0x308, 0x342]), (0x1FE2, [0x3A5, 0x308, 0x300]),
    (0x1FE3, [0x3A5, 0x308, 0x301]), (0x1FE4, [0x3A1, 0x313]), (0x1FE6, [0x3A5, 0x342]),
    (0x1FE7, [0x3A5, 0x308, 0x342]), (0x1FF2, [0x1FFA, 0x399]), (0x1FF3, [0x3A9, 0x399]),
    (0x1FF4, [0x38F, 0x399]), (0x1FF6, [0x3A9, 0x342]), (0x1FF7, [0x3A9, 0x342, 0x399]),
    (0x1FFC, [0x3A9, 0x399]), (0xFB00, [0x46, 0x46]), (0xFB01, [0x46, 0x49]),
    (0xFB02, [0x46, 0x4C]), (0xFB03, [0x46, 0x46, 0x49]), (0xFB04, [0x46, 0x46, 0x4C]),
    (0xFB05, [0x53, 0x54]), (0xFB06, [0x53, 0x54]), (0xFB13, [0x544, 0x546]),
    (0xFB14, [0x544, 0x535]), (0xFB15, [0x544, 0x53B]), (0xFB16, [0x54E, 0x546]),
    (0xFB17, [0x544, 0x53D])
  ]

/-- The uppercase table of Unicode 14.0 on the Basic Multilingual Plane: what
`String.prototype.toUpperCase` gives for the one-unit string `ch` on an engine
that carries that version. It is one table an engine may have; a later
version adds pairs (Unicode 16.0 maps U+0264 to U+A7CB and U+019B to U+A7DC),
so the functions below take the table of the engine as an argument. -/
def unicode14UpperCase (ch : Nat) : JSString :=
  match upperSpecial.lookup ch with
  | some us => us
  | none =>
    match upperRuns.find? fun r => decide (r.1 ≤ ch ∧ ch ≤ r.2.1 ∧ (ch - r.1) % r.2.2.2 = 0) with
    | some r => [r.2.2.1 + (ch - r.1)]
    | none => [ch]

/-- The abstract operation Canonicalize of a regular expression with the `i`
flag and without the `u` flag, over the uppercase table `toUpperCase` of the
engine: the uppercase form when it is one code unit, except that a non-ASCII
code unit is never folded to an ASCII one. -/
def canonicalize (toUpperCase : Nat → JSString) (ch : Nat) : Nat :=
  match toUpperCase ch with
  | [cu] => if 128 ≤ ch ∧ cu < 128 then ch else cu
  | _ => ch

/-- The members of the character class `[\u00A0-\u9999<>\&]`. -/
def classMembers : List Nat :=
  List.range' 0xA0 (0x9999 - 0xA0 + 1) ++ [0x3C, 0x3E, 0x26]

/-- The class matches the code unit `ch` under the `i` flag: some member has
the same canonical form. -/
def classMatches (toUpperCase : Nat → JSString) (ch : Nat) : Bool :=
  classMembers.any fun a => canonicalize toUpperCase a == canonicalize toUpperCase ch

/-- The replacement callback of `htmlEncode`: a numeric character reference
built from `charCodeAt(0)`. -/
def charRef (ch : Nat) : JSString :=
  str "&#" ++ decimal ch ++ str ";"

/-- The function `htmlEncode`: `str.replace(/[\u00A0-\u9999<>\&]/gim, ...)`;
with the `g` flag every code unit the class matches is replaced by the
callback's result, the others are copied. The first argument is the uppercase
table of the engine, which the `i` flag consults. -/
def htmlEncode (toUpperCase : Nat → JSString) : JSString → JSString
  | [] => []
  | ch :: rest =>
    if classMatches toUpperCase ch then charRef ch ++ htmlEncode toUpperCase rest
    else ch :: htmlEncode toUpperCase rest

/-- The function `preprocessData`: a `switch` on the encode option. The first
argument is the uppercase table of the engine, handed on to `htmlEncode`. -/
def preprocessData (toUpperCase : Nat → JSString) (data encode : JSString) :
    Except JSError JSString :=
  if encode = str "url" then
    encodeURIComponent data
  else if encode = str "2url" then
    encodeURIComponent data >>= encodeURIComponent
  else if encode = str "html" then
    .ok (htmlEncode toUpperCase data)
  else if encode = str "2html" then
    .ok (htmlEncode toUpperCase (htmlEncode toUpperCase data))
  else if encode = str "htmlurl" then
    encodeURIComponent (htmlEncode toUpperCase data)
  else
    .ok data

/-! ## Objects with string values and `JSON.stringify` -/

/-- An ordinary object made by the literal `{}` whose property values are
strings: its own properties in creation order. -/
abbrev JSObject := List (JSString × JSString)

/-- The assignment `obj[key] = value` on such an object. The key `__proto__`
reaches the accessor inherited from `Object.prototype`, whose setter ignores a
value that is neither an object nor null; every other inherited property is a
writable data property, so the assignment updates or creates an own property. -/
def JSObject.set (obj : JSObject) (key value : JSString) : JSObject :=
  if key = str "__proto__" then obj
  else if obj.any fun p => decide (p.1 = key) then
    obj.map fun p => if p.1 = key then (p.1, value) else p
  else obj ++ [(key, value)]

/-- The loop `params.forEach(param => { obj[param] = data; })` on a fresh
object. -/
def assignAll (params : List JSString) (data : JSString) : JSObject :=
  params.foldl (fun obj param => obj.set param data) []

/-- The numeric value of a key that is an array index: the canonical decimal
spelling of an integer below `2^32 - 1`. -/
def arrayIndex? (key : JSString) : Option Nat :=
  let n := key.foldl (fun acc d => 10 * acc + (d - 0x30)) 0
  if decimal n = key ∧ n < 4294967295 then some n else none

/-- The order in which property keys created in the order `keys` are
enumerated: array indices in ascending numeric order, then the other keys in
creation order. -/
def keyOrder (keys : List JSString) : List JSString :=
  let indices := (keys.filterMap arrayIndex?).insertionSort fun a b => a ≤ b
  indices.map decimal ++ keys.filter fun k => (arrayIndex? k).isNone

/-- The own property keys of an object, in enumeration order. -/
def ownKeys (obj : JSObject) : List JSString :=
  keyOrder (obj.map fun p => p.1)

/-- One lowercase hexadecimal digit. -/
def hexDigitLower (n : Nat) : Nat :=
  if n < 10 then 0x30 + n else 0x61 + (n - 10)

/-- The abstract operation UnicodeEscape: a backslash, `u` and four lowercase
hexadecimal digits. -/
def unicodeEscape (c : Nat) : JSString :=
  [0x5C, 0x75, hexDigitLower (c / 4096 % 16), hexDigitLower (c / 256 % 16),
    hexDigitLower (c / 16 % 16), hexDigitLower (c % 16)]

/-- The inside of QuoteJSONString, code point by code point: the short
escapes, the other control characters and unpaired surrogates escaped, the
rest copied. -/
def quoteJSONBody : JSString → JSString
  | [] => []
  | c :: rest =>
    if c = 0x08 then str "\\b" ++ quoteJSONBody rest
    else if c = 0x09 then str "\\t" ++ quoteJSONBody rest
    else if c = 0x0A then str "\\n" ++ quoteJSONBody rest
    else if c = 0x0C then str "\\f" ++ quoteJSONBody rest
    else if c = 0x0D then str "\\r" ++ quoteJSONBody rest
    else if c = 0x22 then str "\\\"" ++ quoteJSONBody rest
    else if c = 0x5C then str "\\\\" ++ quoteJSONBody rest
    else if c < 0x20 then unicodeEscape c ++ quoteJSONBody rest
    else if isTrailSurrogate c then unicodeEscape c ++ quoteJSONBody rest
    else if isLeadSurrogate c then
      match rest with
      | [] => unicodeEscape c
      | d :: rest2 =>
        if isTrailSurrogate d then c :: d :: quoteJSONBody rest2
        else unicodeEscape c ++ quoteJSONBody (d :: rest2)
    else c :: quoteJSONBody rest

/-- The abstract operation QuoteJSONString. -/
def quoteJSONString (value : JSString) : JSString :=
  str "\"" ++ quoteJSONBody value ++ str "\""

/-- The call `JSON.stringify(obj, null, 4)` on an object with string values:
the gap is four spaces, and an object without keys is printed as `{}`. -/
def stringify (obj : JSObject) : JSString :=
  let members := (ownKeys obj).filterMap fun key =>
    (obj.lookup key).map fun value => quoteJSONString key ++ str ": " ++ quoteJSONString value
  if members.isEmpty then str "\x7b\x7d"
  else str "\x7b\n    " ++ join members (str ",\n    ") ++ str "\n\x7d"

/-! ## The XML builder -/

/-- What xml2js asks of an xmlbuilder element: a child element with text, or
a text node. -/
inductive BuilderCall where
  | ele (name text : JSString)
  | txt (text : JSString)
  deriving DecidableEq, Repr

/-- The xmlbuilder package as xml2js drives it: a document is created with a
root element name, the calls are made on the root element in order, and
`end(renderOpts)` serialises the document or an exception is thrown on the
way. The package is not part of the repository, so it is a parameter. -/
abbrev XmlBuilder := JSString → List BuilderCall → Except JSError JSString

/-- The library method `Builder.buildObject` of xml2js on an object with
string values, with the options `attrkey` and `charkey` at their defaults `$`
and `_` and `cdata` off. When the object has exactly one key and the option
`rootName` equals the default `root`, the key becomes the root element and
its value the root's text; otherwise the root is `rootName` and each key is
rendered in enumeration order. -/
def buildObject (xmlbuilder : XmlBuilder) (rootName : JSString) (rootObj : JSObject) :
    Except JSError JSString :=
  let entries := (ownKeys rootObj).filterMap fun key =>
    (rootObj.lookup key).map fun value => (key, value)
  match entries, decide (rootName = str "root") with
  | [(key, value)], true => xmlbuilder key [.txt value]
  | _, _ =>
    xmlbuilder rootName (entries.filterMap fun (key, child) =>
      if key = str "$" then none
      else if key = str "_" then some (.txt child)
      else some (.ele key child))

/-! ## The output formatter -/

/-- The function `generateUrl`. Its first argument is the xmlbuilder package
that `xml2js.Builder` serialises with; the other four are the source's. -/
def generateUrl (xmlbuilder : XmlBuilder) (url : JSString) (params : List JSString)
    (data output : JSString) : Except JSError JSString := do
  let generatedOutput ←
    if output = str "url" ∨ output = str "bodyurl" then
      pure (join (params.map fun param => param ++ str "=" ++ data) (str "&"))
    else if output = str "nice" then
      pure (params.foldl (fun _ param => url ++ (str "/" ++ param ++ str "/" ++ data)) [])
    else if output = str "json" then
      pure (stringify (assignAll params data))
    else if output = str "xml" then
      buildObject xmlbuilder (str "root") (assignAll params data)
    else
      pure []
  if output = str "url" ∧ url ≠ [] then
    let separator := if includes url (str "?") then str "&" else str "?"
    pure (url ++ separator ++ generatedOutput)
  else
    pure generatedOutput

/-! ## The parameter source and the entry point -/

/-- The result of the abstract operation ToIntegerOrInfinity. -/
inductive IntegerOrInfinity where
  | negInfinity
  | finite (n : Int)
  | posInfinity
  deriving DecidableEq, Repr

/-- What the program reaches outside its own source: the xmlbuilder package,
the file system, the engine's conversion of a string to a number and its
uppercase table. `toUpperCase ch` is `String.prototype.toUpperCase` on the
one-unit string `ch`, which the `i` flag of a regular expression consults.
`readFileSync path` is the text of the file decoded as UTF-8, or the message
of the exception `fs.readFileSync` throws. `toIntegerOrInfinity s` is
ToIntegerOrInfinity of the number the string `s` converts to, which is how
`slice` reads an argument that is a string. -/
structure Host where
  xmlbuilder : XmlBuilder
  readFileSync : JSString → Except JSString JSString
  toIntegerOrInfinity : JSString → IntegerOrInfinity
  toUpperCase : Nat → JSString

/-- `String.prototype.split` with a separator of one code unit and no limit,
as in `split('\n')` and `split(',')`: the pieces between the occurrences of
the separator, the empty ones included. -/
def split : JSString → Nat → List JSString
  | [], _ => [[]]
  | c :: rest, sep =>
    if c = sep then [] :: split rest sep
    else
      match split rest sep with
      | [] => [[c]]
      | piece :: pieces => (c :: piece) :: pieces

/-- `Array.prototype.slice(0, last)`: `none` is `undefined`, which keeps the
whole array; a negative number counts from the end. -/
def slice (xs : List JSString) (last : Option IntegerOrInfinity) : List JSString :=
  match last with
  | none => xs
  | some .negInfinity => []
  | some (.finite n) =>
    if n < 0 then xs.take (max ((xs.length : Int) + n) 0).toNat
    else xs.take (min n (xs.length : Int)).toNat
  | some .posInfinity => xs

/-- The function `readParamsFromFile`. The first component lists the paths
handed to `fs.readFileSync`; the second is the returned array or the thrown
exception. `new Error('Error reading params file:', error.message)` takes its
second argument as the options of the constructor, so the message of the new
error is the first argument alone. -/
def readParamsFromFile (host : Host) (paramFilePath : JSString) (count : Option JSString) :
    List JSString × Except JSError (List JSString) :=
  if paramFilePath = [] then ([], .ok [])
  else
    match host.readFileSync paramFilePath with
    | .ok paramFileData =>
      let last :=
        match count with
        | none => none
        | some c => if c = [] then none else some (host.toIntegerOrInfinity c)
      ([paramFilePath], .ok (slice (split paramFileData 0x0A) last))
    | .error _ => ([paramFilePath], .error (.error (str "Error reading params file:")))

/-- The object `program.opts()`: every option is a string or undefined. -/
structure Options where
  url : Option JSString
  params : Option JSString
  count : Option JSString
  data : Option JSString
  output : Option JSString
  encode : Option JSString

/-- What one run of `main` does: the paths handed to `fs.readFileSync`, the
argument of `console.log` when it is called, and the exception caught when
one is, whose message `console.error('Error:', error.message)` prints after
`Error:`. -/
structure Outcome where
  filesRead : List JSString
  stdout : Option JSString
  stderr : Option JSError
  deriving DecidableEq

/-- The value of an option when it is truthy: a string that is not empty. -/
def truthy (value : Option JSString) : Option JSString :=
  match value with
  | some s => if s = [] then none else some s
  | none => none

/-- The lines of `main` that parse the parameters: nothing for a falsy
`paramInput`, the file when it includes `.txt`, the comma list otherwise. The
first component lists the paths handed to `fs.readFileSync`. -/
def resolveParams (host : Host) (paramInput count : Option JSString) :
    List JSString × Except JSError (List JSString) :=
  match truthy paramInput with
  | none => ([], .ok [])
  | some input =>
    if includes input (str ".txt") then readParamsFromFile host input count
    else ([], .ok (split input 0x2C))

/-- The function `main` on the options `program.opts()` returned. -/
def main (host : Host) (opts : Options) : Outcome :=
  match truthy opts.url with
  | none => ⟨[], none, some (.error (str "Missing required argument: -u, --url <url>"))⟩
  | some url =>
    match truthy opts.data with
    | none => ⟨[], none, some (.error (str "Missing required argument: -d, --data <data>"))⟩
    | some data =>
      match truthy opts.output with
      | none =>
        ⟨[], none, some (.error (str "Missing required argument: -o, --output <output>"))⟩
      | some output =>
        let resolved := resolveParams host opts.params opts.count
        let result := do
          let params ← resolved.2
          let dataValue ←
            match opts.encode with
            | some encode => preprocessData host.toUpperCase data encode
            | none => .ok data
          generateUrl host.xmlbuilder url params dataValue output
        match result with
        | .ok generatedOutput => ⟨resolved.1, some generatedOutput, none⟩
        | .error error => ⟨resolved.1, none, some error⟩

/-- The message of an exception, where the source fixes it. -/
def JSError.message? : JSError → Option JSString
  | .error message => some message
  | _ => none

/-! ## Reference definitions for the statements -/

deriving instance DecidableEq for Except

instance (s : JSString) : Decidable (WellFormed s) :=
  inferInstanceAs (Decidable (∀ c ∈ s, c < 0x10000))

instance (s : JSString) : Decidable (NoSurrogates s) :=
  inferInstanceAs (Decidable (∀ c ∈ s, ¬ (0xD800 ≤ c ∧ c ≤ 0xDFFF)))

/-- A builder that always throws, for closed examples that never reach the
XML branch. -/
def throwingBuilder : XmlBuilder := fun _ _ => .error .xmlError

/-- The result of `encodeURIComponent` on a string without surrogates,
character by character. -/
def percentEncodeSpec (data : JSString) : JSString :=
  data.flatMap fun c => if isUnreserved c then [c] else (utf8 c).flatMap percentOctet

/-- An uppercase hexadecimal digit character. -/
def isHexUpper (c : Nat) : Bool :=
  decide ((0x30 ≤ c ∧ c ≤ 0x39) ∨ (0x41 ≤ c ∧ c ≤ 0x46))

/-- The string consists only of unreserved characters and of `%` followed by
two uppercase hexadecimal digits. -/
def escapedOnly : JSString → Bool
  | [] => true
  | c :: rest =>
    if c = 0x25 then
      match rest with
      | a :: b :: rest2 => isHexUpper a && isHexUpper b && escapedOnly rest2
      | _ => false
    else isUnreserved c && escapedOnly rest

/-- The URI-component escaping, stated with the UTF-8 encoder of the Lean
library: a character among the unreserved ones is copied, every other
character becomes, for each octet of its UTF-8 encoding, `%` and the two
uppercase hexadecimal digits of the octet. -/
def uriComponentSpec (data : JSString) : JSString :=
  data.flatMap fun c =>
    if c ∈ str "ABCDEFGHIJKLMNOPQRSTUVWXYZabcdefghijklmnopqrstuvwxyz0123456789-_.!~*'()" then [c]
    else (String.utf8EncodeChar (Char.ofNat c)).flatMap fun octet =>
      [0x25, (str "0123456789ABCDEF").getD (octet.toNat / 16) 0,
        (str "0123456789ABCDEF").getD (octet.toNat % 16) 0]

/-- The uppercase table agrees with ASCII uppercase on the ASCII code units:
the letters `a` to `z` go to `A` to `Z`, every other one to itself. Every
version of Unicode has this. -/
def AsciiUpperCase (toUpperCase : Nat → JSString) : Prop :=
  ∀ c < 128, toUpperCase c = [if 0x61 ≤ c ∧ c ≤ 0x7A then c - 0x20 else c]

/-- The transform as the specification words it: a code unit in
U+00A0..U+9999 or one of `<`, `>`, `&` becomes a numeric character reference,
every other code unit is copied. -/
def htmlEncodeSpec (s : JSString) : JSString :=
  s.flatMap fun c =>
    if (0xA0 ≤ c ∧ c ≤ 0x9999) ∨ c = 0x3C ∨ c = 0x3E ∨ c = 0x26 then
      str "&#" ++ decimal c ++ str ";"
    else [c]

/-- The distinct names of a parameter list in order of first occurrence. -/
def distinctNames (params : List JSString) : List JSString :=
  params.reverse.dedup.reverse

/-- The text `JSON.stringify(obj, null, 4)` gives for an object whose keys, in
the order listed, all map to `data`. -/
def jsonText (keys : List JSString) (data : JSString) : JSString :=
  if keys = [] then str "\x7b\x7d"
  else str "\x7b\n    " ++
    List.intercalate (str ",\n    ")
      (keys.map fun key => quoteJSONString key ++ str ": " ++ quoteJSONString data) ++
    str "\n\x7d"

/-- An example host: one parameter file `params.txt` with three lines, every
other path missing, the builder out of reach, a number conversion that knows
the plain decimal numerals only, and the uppercase table of Unicode 14.0. -/
def exampleHost : Host where
  xmlbuilder := throwingBuilder
  readFileSync := fun path =>
    if path = str "params.txt" then .ok (str "a\nb\nc\n")
    else .error (str "ENOENT: no such file or directory, open '" ++ path ++ str "'")
  toIntegerOrInfinity := fun s =>
    match arrayIndex? s with
    | some n => .finite n
    | none => .finite 0
  toUpperCase := unicode14UpperCase

/-- A decimal digit character. -/
def isDecimalDigit (c : Nat) : Bool :=
  decide (0x30 ≤ c ∧ c ≤ 0x39)

/-- The string starts with `&#`, one or more decimal digits and `;`. -/
def startsWithCharRef (t : JSString) : Bool :=
  match t with
  | a :: h :: rest =>
    a == 0x26 && h == 0x23 && !(rest.takeWhile isDecimalDigit).isEmpty &&
      (rest.dropWhile isDecimalDigit).head? == some 0x3B
  | _ => false

/-- Every `&` of the string starts a numeric character reference. -/
def ampersandsAreCharRefs : JSString → Bool
  | [] => true
  | c :: rest => (c != 0x26 || startsWithCharRef (c :: rest)) && ampersandsAreCharRefs rest

/-- The string with every `%` replaced by `%25`. -/
def replacePercent (s : JSString) : JSString :=
  s.flatMap fun c => if c = 0x25 then str "%25" else [c]

/-- The pieces of a string before and after its first occurrence of a code
unit, when there is one. -/
def splitAtFirst (s : JSString) (sep : Nat) : Option (JSString × JSString) :=
  match s.span fun c => c != sep with
  | (before, _ :: after) => some (before, after)
  | (_, []) => none

/-! ## Lemmas on strings and the formatter -/

theorem join_eq_intercalate (xs : List JSString) (sep : JSString) :
    join xs sep = List.intercalate sep xs := by
  induction xs with
  | nil => rfl
  | cons x rest ih =>
    cases rest with
    | nil => simp [join, List.intercalate]
    | cons y rest2 =>
      rw [join, ih]
      simp [List.intercalate, List.intersperse]

theorem includes_singleton (s : JSString) (c : Nat) : includes s [c] = true ↔ c ∈ s := by
  induction s with
  | nil => simp [includes, List.isPrefixOf]
  | cons a rest ih =>
    have h : includes (a :: rest) [c] = (c == a || includes rest [c]) := by
      simp [includes, List.isPrefixOf, List.tails]
    rw [h]
    simp [ih]

theorem foldl_overwrite_eq (f : JSString → JSString) (params : List JSString) (acc : JSString) :
    params.foldl (fun _ param => f param) acc =
      match params.getLast? with
      | none => acc
      | some p => f p := by
  induction params generalizing acc with
  | nil => rfl
  | cons x rest ih =>
    rw [List.foldl_cons, ih]
    cases rest with
    | nil => rfl
    | cons y rest2 =>
      rw [List.getLast?_cons_cons]
      cases hl : (y :: rest2).getLast? with
      | none => simp at hl
      | some p => rfl

/-! ## The `url`, `bodyurl` and `nice` outputs -/

/-- C1: for a non-empty url, `generateUrl(url, params, data, 'url')` is the
url, then `&` when the url contains a `?` and `?` otherwise, then the strings
`param=data` in list order joined with `&` (nothing for an empty list). -/
theorem generateUrl_url (xmlbuilder : XmlBuilder) (url : JSString) (params : List JSString)
    (data : JSString) (h : url ≠ []) :
    generateUrl xmlbuilder url params data (str "url") =
      .ok (url ++ (if 0x3F ∈ url then str "&" else str "?") ++
        List.intercalate (str "&") (params.map fun param => param ++ str "=" ++ data)) := by
  have hq : includes url (str "?") = true ↔ 0x3F ∈ url := includes_singleton url 0x3F
  unfold generateUrl
  simp only [true_or, if_true, h, ne_eq, not_false_eq_true, and_self, join_eq_intercalate]
  by_cases hmem : 0x3F ∈ url
  · simp [hmem, hq.mpr hmem]; rfl
  · have : includes url (str "?") = false := by
      cases hi : includes url (str "?") with
      | false => rfl
      | true => exact absurd (hq.mp hi) hmem
    simp [hmem, this]; rfl

/-- C1, witness: the two examples of the specification. -/
theorem generateUrl_url_witness :
    str "http://x.com" ≠ [] ∧
    generateUrl throwingBuilder (str "http://x.com") [str "a", str "b"] (str "1") (str "url") =
      .ok (str "http://x.com?a=1&b=1") ∧
    generateUrl throwingBuilder (str "http://x.com?z=9") [str "a", str "b"] (str "1") (str "url") =
      .ok (str "http://x.com?z=9&a=1&b=1") :=
  ⟨by decide,
   (generateUrl_url throwingBuilder (str "http://x.com") [str "a", str "b"] (str "1")
      (by decide)).trans (by decide),
   (generateUrl_url throwingBuilder (str "http://x.com?z=9") [str "a", str "b"] (str "1")
      (by decide)).trans (by decide)⟩

/-- C2: `generateUrl(url, params, data, 'bodyurl')` is the strings
`param=data` in list order joined with `&`, whatever the url is: the result is
the same for any two url values. -/
theorem generateUrl_bodyurl (xmlbuilder : XmlBuilder) (url : JSString) (params : List JSString)
    (data : JSString) :
    generateUrl xmlbuilder url params data (str "bodyurl") =
        .ok (List.intercalate (str "&") (params.map fun param => param ++ str "=" ++ data)) ∧
      ∀ url2 : JSString, generateUrl xmlbuilder url2 params data (str "bodyurl") =
        generateUrl xmlbuilder url params data (str "bodyurl") := by
  have hne : str "bodyurl" ≠ str "url" := by decide
  have key : ∀ u : JSString, generateUrl xmlbuilder u params data (str "bodyurl") =
      .ok (List.intercalate (str "&") (params.map fun param => param ++ str "=" ++ data)) := by
    intro u
    unfold generateUrl
    simp only [or_true, if_true, hne, false_and, if_false, join_eq_intercalate]
    rfl
  exact ⟨key url, fun url2 => (key url2).trans (key url).symm⟩

/-- C3: `generateUrl(url, params, data, 'nice')` is `url/p/data` for the last
parameter `p` of the list, and the empty string when the list is empty. -/
theorem generateUrl_nice (xmlbuilder : XmlBuilder) (url : JSString) (params : List JSString)
    (data : JSString) :
    generateUrl xmlbuilder url params data (str "nice") =
      .ok (match params.getLast? with
        | none => []
        | some p => url ++ str "/" ++ p ++ str "/" ++ data) := by
  have h1 : str "nice" ≠ str "url" := by decide
  have h2 : str "nice" ≠ str "bodyurl" := by decide
  unfold generateUrl
  simp only [h1, h2, or_self, if_false, if_true, false_and]
  rw [foldl_overwrite_eq (fun param => url ++ (str "/" ++ param ++ str "/" ++ data))]
  cases params.getLast? <;> simp <;> rfl

/-! ## The encoder: composites and the default case -/

/-- C9: the composite encodings are compositions of the base ones, an
exception of the first step included: `2url` is `url` after `url`, `2html` is
`html` after `html`, and `htmlurl` is `html` first and `url` second. -/
theorem preprocessData_composite (upper : Nat → JSString) (V : JSString) :
    preprocessData upper V (str "2url") =
        (preprocessData upper V (str "url") >>= fun W => preprocessData upper W (str "url")) ∧
      preprocessData upper V (str "2html") =
        (preprocessData upper V (str "html") >>= fun W => preprocessData upper W (str "html")) ∧
      preprocessData upper V (str "htmlurl") =
        (preprocessData upper V (str "html") >>= fun W => preprocessData upper W (str "url")) := by
  refine ⟨?_, ?_, ?_⟩
  · have h1 : str "2url" ≠ str "url" := by decide
    simp only [preprocessData, h1, if_false, if_true]
  · have h1 : str "2html" ≠ str "url" := by decide
    have h2 : str "2html" ≠ str "2url" := by decide
    have h3 : str "2html" ≠ str "html" := by decide
    have h4 : str "html" ≠ str "url" := by decide
    have h5 : str "html" ≠ str "2url" := by decide
    simp only [preprocessData, h1, h2, h3, h4, h5, if_false, if_true, Except.bind, bind]
  · have h1 : str "htmlurl" ≠ str "url" := by decide
    have h2 : str "htmlurl" ≠ str "2url" := by decide
    have h3 : str "htmlurl" ≠ str "html" := by decide
    have h4 : str "htmlurl" ≠ str "2html" := by decide
    have h5 : str "html" ≠ str "url" := by decide
    have h6 : str "html" ≠ str "2url" := by decide
    simp only [preprocessData, h1, h2, h3, h4, h5, h6, if_false, if_true]
    rfl

/-- C10: for an encode value that is none of `url`, `2url`, `html`, `2html`,
`htmlurl`, `preprocessData` returns the data unchanged and throws nothing. -/
theorem preprocessData_default (upper : Nat → JSString) (data encode : JSString)
    (h : encode ∉ [str "url", str "2url", str "html", str "2html", str "htmlurl"]) :
    preprocessData upper data encode = .ok data := by
  simp only [List.mem_cons, List.mem_singleton, List.not_mem_nil, or_false, not_or] at h
  obtain ⟨h1, h2, h3, h4, h5⟩ := h
  simp only [preprocessData, h1, h2, h3, h4, h5, if_false]

/-- C10, witness: the encode values `none`, `URL` and the empty string. -/
theorem preprocessData_default_witness :
    (str "none" ∉ [str "url", str "2url", str "html", str "2html", str "htmlurl"] ∧
      preprocessData unicode14UpperCase (str "<a>&") (str "none") = .ok (str "<a>&")) ∧
    (str "URL" ∉ [str "url", str "2url", str "html", str "2html", str "htmlurl"] ∧
      preprocessData unicode14UpperCase (str "<a>&") (str "URL") = .ok (str "<a>&")) ∧
    (str "" ∉ [str "url", str "2url", str "html", str "2html", str "htmlurl"] ∧
      preprocessData unicode14UpperCase (str "<a>&") (str "") = .ok (str "<a>&")) :=
  ⟨⟨by decide, preprocessData_default _ _ _ (by decide)⟩,
   ⟨by decide, preprocessData_default _ _ _ (by decide)⟩,
   ⟨by decide, preprocessData_default _ _ _ (by decide)⟩⟩

/-! ## Percent-encoding -/

theorem encodeURIComponent_cons_plain (c : Nat) (rest : JSString)
    (hc : ¬ (0xD800 ≤ c ∧ c ≤ 0xDFFF)) :
    encodeURIComponent (c :: rest) =
      (encodeURIComponent rest).map fun r =>
        (if isUnreserved c then [c] else (utf8 c).flatMap percentOctet) ++ r := by
  have ht : isTrailSurrogate c = false := by
    simp only [isTrailSurrogate, decide_eq_false_iff_not]; omega
  have hl : isLeadSurrogate c = false := by
    simp only [isLeadSurrogate, decide_eq_false_iff_not]; omega
  rw [encodeURIComponent.eq_def]
  by_cases hu : isUnreserved c = true
  · simp [hu]
  · simp [hu, ht, hl, percentCodePoint]

theorem encodeURIComponent_noSurrogates (data : JSString) (hs : NoSurrogates data) :
    encodeURIComponent data = .ok (percentEncodeSpec data) := by
  induction data with
  | nil => rfl
  | cons c rest ih =>
    have hc : ¬ (0xD800 ≤ c ∧ c ≤ 0xDFFF) := hs c (List.mem_cons_self c rest)
    have hr : NoSurrogates rest := fun d hd => hs d (List.mem_cons_of_mem c hd)
    rw [encodeURIComponent_cons_plain c rest hc, ih hr]
    simp [percentEncodeSpec, Except.map]

theorem hexDigit_isHexUpper (n : Nat) (h : n < 16) : isHexUpper (hexDigit n) = true := by
  simp only [isHexUpper, hexDigit, decide_eq_true_eq]
  split <;> omega

theorem escapedOnly_percentOctet (octet : Nat) (rest : JSString) (h : octet < 256) :
    escapedOnly (percentOctet octet ++ rest) = escapedOnly rest := by
  have h1 := hexDigit_isHexUpper (octet / 16) (by omega)
  have h2 := hexDigit_isHexUpper (octet % 16) (by omega)
  rw [percentOctet, escapedOnly.eq_def]
  simp [h1, h2]

theorem escapedOnly_unreserved (c : Nat) (rest : JSString) (h : isUnreserved c = true) :
    escapedOnly (c :: rest) = escapedOnly rest := by
  have hne : c ≠ 0x25 := by
    intro hc
    rw [hc] at h
    exact absurd h (by decide)
  rw [escapedOnly.eq_def]
  simp [hne, h]

theorem utf8_octets (c : Nat) (h : c < 0x10000) : ∀ o ∈ utf8 c, o < 256 := by
  intro o ho
  unfold utf8 at ho
  split_ifs at ho <;> simp at ho <;> omega

theorem escapedOnly_octets (octets : List Nat) (rest : JSString) (h : ∀ o ∈ octets, o < 256) :
    escapedOnly (octets.flatMap percentOctet ++ rest) = escapedOnly rest := by
  induction octets with
  | nil => rfl
  | cons o os ih =>
    rw [List.flatMap_cons, List.append_assoc,
      escapedOnly_percentOctet o _ (h o (List.mem_cons_self o os))]
    exact ih fun x hx => h x (List.mem_cons_of_mem o hx)

theorem escapedOnly_percentEncodeSpec (data : JSString) (hw : WellFormed data) :
    escapedOnly (percentEncodeSpec data) = true := by
  induction data with
  | nil => rfl
  | cons c rest ih =>
    have hr : WellFormed rest := fun d hd => hw d (List.mem_cons_of_mem c hd)
    have hc : c < 0x10000 := hw c (List.mem_cons_self c rest)
    have ih2 := ih hr
    unfold percentEncodeSpec at ih2 ⊢
    rw [List.flatMap_cons]
    by_cases hu : isUnreserved c = true
    · simp only [hu, if_true, List.singleton_append]
      rw [escapedOnly_unreserved c _ hu]
      exact ih2
    · simp only [hu, Bool.false_eq_true, if_false]
      rw [escapedOnly_octets (utf8 c) _ (utf8_octets c hc)]
      exact ih2

/-! ### Agreement with the UTF-8 encoder of the library -/

theorem uint8_toNat_or (a b : UInt8) : (a ||| b).toNat = a.toNat ||| b.toNat := by
  show (a.toBitVec ||| b.toBitVec).toNat = _
  simp [UInt8.toNat]

theorem uint8_toNat_and (a b : UInt8) : (a &&& b).toNat = a.toNat &&& b.toNat := by
  show (a.toBitVec &&& b.toBitVec).toNat = _
  simp [UInt8.toNat]

theorem uint32_toUInt8_toNat (v : UInt32) : v.toUInt8.toNat = v.toNat % 256 := by
  simp [UInt32.toUInt8, Nat.toUInt8, UInt8.ofNat, UInt8.toNat, UInt32.toNat]

theorem uint32_shr6_toNat (v : UInt32) : (v >>> 6).toNat = v.toNat / 64 := by
  show (UInt32.shiftRight v 6).toNat = _
  have h : (UInt32.mod 6 32).toBitVec.toNat = 6 := by decide
  simp [UInt32.shiftRight, UInt32.toNat, Nat.shiftRight_eq_div_pow, h]

theorem uint32_shr12_toNat (v : UInt32) : (v >>> 12).toNat = v.toNat / 4096 := by
  show (UInt32.shiftRight v 12).toNat = _
  have h : (UInt32.mod 12 32).toBitVec.toNat = 12 := by decide
  simp [UInt32.shiftRight, UInt32.toNat, Nat.shiftRight_eq_div_pow, h]

theorem uint32_shr18_toNat (v : UInt32) : (v >>> 18).toNat = v.toNat / 262144 := by
  show (UInt32.shiftRight v 18).toNat = _
  have h : (UInt32.mod 18 32).toBitVec.toNat = 18 := by decide
  simp [UInt32.shiftRight, UInt32.toNat, Nat.shiftRight_eq_div_pow, h]

theorem bits_lead2 : ∀ x < 32, (x % 256 &&& 0x1f ||| 0xc0) = 0xC0 + x := by decide
theorem bits_lead3 : ∀ x < 16, (x % 256 &&& 0x0f ||| 0xe0) = 0xE0 + x := by decide
theorem bits_lead4 : ∀ x < 8, (x % 256 &&& 0x07 ||| 0xf0) = 0xF0 + x := by decide
set_option maxRecDepth 100000 in
theorem bits_cont : ∀ x < 256, (x &&& 0x3f ||| 0x80) = 0x80 + x % 64 := by decide

theorem uint32_le_iff (v : UInt32) (k : Nat) (hk : k < 4294967296) :
    v ≤ (OfNat.ofNat k : UInt32) ↔ v.toNat ≤ k := by
  show v.toBitVec ≤ (BitVec.ofNat 32 k) ↔ _
  rw [BitVec.le_def]
  simp [UInt32.toNat, Nat.mod_eq_of_lt hk]

/-- The octets of `utf8` are those of the UTF-8 encoder of the Lean library,
on every Unicode scalar value. -/
theorem utf8_eq_library (c : Char) :
    utf8 c.toNat = (String.utf8EncodeChar c).map UInt8.toNat := by
  have hv : c.toNat < 0x110000 := by
    have := c.valid
    simp only [UInt32.isValidChar, Nat.isValidChar] at this
    show c.val.toNat < _
    omega
  have hn : c.val.toNat = c.toNat := rfl
  unfold String.utf8EncodeChar utf8
  simp only [uint32_le_iff c.val 0x7f (by decide), uint32_le_iff c.val 0x7ff (by decide),
    uint32_le_iff c.val 0xffff (by decide), hn]
  have c1 := bits_cont (c.toNat % 256) (Nat.mod_lt _ (by decide))
  have c2 := bits_cont (c.toNat / 64 % 256) (Nat.mod_lt _ (by decide))
  have c3 := bits_cont (c.toNat / 4096 % 256) (Nat.mod_lt _ (by decide))
  have m1 : c.toNat % 256 % 64 = c.toNat % 64 := by omega
  have m2 : c.toNat / 64 % 256 % 64 = c.toNat / 64 % 64 := by omega
  have m3 : c.toNat / 4096 % 256 % 64 = c.toNat / 4096 % 64 := by omega
  have k1 : UInt8.toNat 0x1f = 0x1f := rfl
  have k2 : UInt8.toNat 0xc0 = 0xc0 := rfl
  have k3 : UInt8.toNat 0x3f = 0x3f := rfl
  have k4 : UInt8.toNat 0x80 = 0x80 := rfl
  have k5 : UInt8.toNat 0x0f = 0x0f := rfl
  have k6 : UInt8.toNat 0xe0 = 0xe0 := rfl
  have k7 : UInt8.toNat 0x07 = 0x07 := rfl
  have k8 : UInt8.toNat 0xf0 = 0xf0 := rfl
  by_cases h1 : c.toNat ≤ 0x7f
  · have : c.toNat < 0x80 := by omega
    simp only [h1, this, if_true, List.map_cons, List.map_nil, uint32_toUInt8_toNat, hn]
    congr 1; omega
  · have e1 : ¬ c.toNat < 0x80 := by omega
    by_cases h2 : c.toNat ≤ 0x7ff
    · have e2 : c.toNat < 0x800 := by omega
      have l := bits_lead2 (c.toNat / 64) (by omega)
      simp only [h1, h2, e1, e2, if_true, if_false, List.map_cons, List.map_nil, uint8_toNat_or,
        uint8_toNat_and, uint32_toUInt8_toNat, uint32_shr6_toNat, hn, k1, k2, k3, k4, l, c1, m1]

    · have e2 : ¬ c.toNat < 0x800 := by omega
      by_cases h3 : c.toNat ≤ 0xffff
      · have e3 : c.toNat < 0x10000 := by omega
        have l := bits_lead3 (c.toNat / 4096) (by omega)
        simp only [h1, h2, h3, e1, e2, e3, if_true, if_false, List.map_cons, List.map_nil,
          uint8_toNat_or, uint8_toNat_and, uint32_toUInt8_toNat, uint32_shr6_toNat, uint32_shr12_toNat, hn, k3, k4, k5, k6, l,
          c1, c2, m1, m2]

      · have e3 : ¬ c.toNat < 0x10000 := by omega
        have l := bits_lead4 (c.toNat / 262144) (by omega)
        simp only [h1, h2, h3, e1, e2, e3, if_true, if_false, List.map_cons, List.map_nil,
          uint8_toNat_or, uint8_toNat_and, uint32_toUInt8_toNat, uint32_shr6_toNat, uint32_shr12_toNat, uint32_shr18_toNat, hn, k3, k4,
          k7, k8, l, c1, c2, c3, m1, m2, m3]

set_option maxRecDepth 100000 in
theorem isUnreserved_ascii : ∀ c < 128, (isUnreserved c = true ↔
    c ∈ str "ABCDEFGHIJKLMNOPQRSTUVWXYZabcdefghijklmnopqrstuvwxyz0123456789-_.!~*'()") := by
  decide

theorem isUnreserved_iff (c : Nat) :
    isUnreserved c = true ↔
      c ∈ str "ABCDEFGHIJKLMNOPQRSTUVWXYZabcdefghijklmnopqrstuvwxyz0123456789-_.!~*'()" := by
  by_cases h : c < 128
  · exact isUnreserved_ascii c h
  · constructor
    · intro hu
      simp only [isUnreserved, decide_eq_true_eq, List.mem_cons, List.mem_singleton,
        List.not_mem_nil, or_false] at hu
      omega
    · intro hm
      have : ∀ d ∈ str "ABCDEFGHIJKLMNOPQRSTUVWXYZabcdefghijklmnopqrstuvwxyz0123456789-_.!~*'()",
          d < 128 := by decide
      exact absurd (this c hm) h

theorem hexDigit_eq : ∀ n < 16, hexDigit n = (str "0123456789ABCDEF").getD n 0 := by decide

theorem toNat_ofNat_valid (c : Nat) (h : c < 0x10000) (hs : ¬ (0xD800 ≤ c ∧ c ≤ 0xDFFF)) :
    (Char.ofNat c).toNat = c := by
  have hv : c.isValidChar := by
    simp only [Nat.isValidChar]; omega
  simp only [Char.ofNat, hv, dite_true, Char.ofNatAux, Char.toNat]
  rfl

theorem percentOctet_eq (octet : UInt8) :
    percentOctet octet.toNat =
      [0x25, (str "0123456789ABCDEF").getD (octet.toNat / 16) 0,
        (str "0123456789ABCDEF").getD (octet.toNat % 16) 0] := by
  have hlt : octet.toNat < 256 := octet.toBitVec.isLt
  rw [percentOctet, hexDigit_eq _ (by omega), hexDigit_eq _ (by omega)]

theorem percentEncodeSpec_eq (data : JSString) (hw : WellFormed data) (hs : NoSurrogates data) :
    percentEncodeSpec data = uriComponentSpec data := by
  unfold percentEncodeSpec uriComponentSpec
  apply List.flatMap_congr
  intro c hc
  have hc1 := hw c hc
  have hc2 := hs c hc
  by_cases hu : isUnreserved c = true
  · rw [if_pos hu, if_pos ((isUnreserved_iff c).mp hu)]
  · rw [if_neg hu, if_neg (fun hm => hu ((isUnreserved_iff c).mpr hm))]
    have e := utf8_eq_library (Char.ofNat c)
    rw [toNat_ofNat_valid c hc1 hc2] at e
    rw [e, List.flatMap_map]
    apply List.flatMap_congr
    intro o _
    exact percentOctet_eq o

/-- C8: for a data string without surrogate code units,
`preprocessData(data, 'url')` returns the URI-component escaping of the data
(the unreserved characters, ASCII letters, digits and `- _ . ! ~ * ' ( )`,
copied, every other character replaced by the `%XX` escapes, in uppercase
hexadecimal, of the octets of its UTF-8 encoding), and the result consists
only of unreserved characters and of `%` followed by two hexadecimal digits. -/
theorem preprocessData_url (upper : Nat → JSString) (data : JSString) (hw : WellFormed data)
    (hs : NoSurrogates data) :
    preprocessData upper data (str "url") = .ok (uriComponentSpec data) ∧
      escapedOnly (uriComponentSpec data) = true := by
  rw [← percentEncodeSpec_eq data hw hs]
  refine ⟨?_, escapedOnly_percentEncodeSpec data hw⟩
  simp only [preprocessData, if_true]
  exact encodeURIComponent_noSurrogates data hs

/-- C8, witness: a string with a space, `&`, a two-octet and a three-octet
character. -/
theorem preprocessData_url_witness :
    WellFormed (str "a b&é€") ∧ NoSurrogates (str "a b&é€") ∧
      preprocessData unicode14UpperCase (str "a b&é€") (str "url") =
        .ok (str "a%20b%26%C3%A9%E2%82%AC") ∧
      escapedOnly (str "a%20b%26%C3%A9%E2%82%AC") = true :=
  have hw : WellFormed (str "a b&é€") := by decide
  have hs : NoSurrogates (str "a b&é€") := by decide
  ⟨hw, hs, (preprocessData_url _ _ hw hs).1.trans (by decide), by decide⟩

/-! ## The character class of `htmlEncode` under the `i` flag -/

theorem mem_classMembers (a : Nat) :
    a ∈ classMembers ↔ (0xA0 ≤ a ∧ a ≤ 0x9999) ∨ a = 0x3C ∨ a = 0x3E ∨ a = 0x26 := by
  simp only [classMembers, List.mem_append, List.mem_range', List.mem_cons, List.mem_singleton,
    List.not_mem_nil, or_false]
  constructor
  · rintro (⟨i, hi, rfl⟩ | h)
    · left; omega
    · right; exact h
  · rintro (h | h)
    · left; exact ⟨a - 0xA0, by omega, by omega⟩
    · right; exact h

theorem classMatches_iff {upper : Nat → JSString} {ch : Nat} :
    classMatches upper ch = true ↔
      ∃ a ∈ classMembers, canonicalize upper a = canonicalize upper ch := by
  simp [classMatches, List.any_eq_true]

/-! ### Facts about the table of Unicode 14.0 -/

set_option maxRecDepth 100000 in
theorem upperSpecial_long : ∀ e ∈ upperSpecial, 2 ≤ e.2.length := by decide

set_option maxRecDepth 100000 in
theorem upperRuns_target : ∀ r ∈ upperRuns,
    0xA0 ≤ r.2.2.1 ∨ r.2.2.1 + (r.2.1 - r.1) < 128 := by decide


theorem lookup_mem {α : Type} (l : List (Nat × α)) (k : Nat) (v : α)
    (h : l.lookup k = some v) : (k, v) ∈ l := by
  induction l with
  | nil => simp at h
  | cons e rest ih =>
    obtain ⟨k2, v2⟩ := e
    rw [List.lookup_cons] at h
    by_cases hk : k = k2
    · subst hk
      simp at h
      subst h
      exact List.mem_cons_self _ _
    · have : (k == k2) = false := by simpa using hk
      rw [this] at h
      exact List.mem_cons_of_mem _ (ih h)

/-- A one-unit uppercase form is the code unit itself or comes from a run. -/
theorem toUpperCase_single (a cu : Nat) (h : unicode14UpperCase a = [cu]) :
    cu = a ∨ ∃ r ∈ upperRuns, r.1 ≤ a ∧ a ≤ r.2.1 ∧ cu = r.2.2.1 + (a - r.1) := by
  unfold unicode14UpperCase at h
  cases hs : upperSpecial.lookup a with
  | some us =>
    rw [hs] at h
    simp only at h
    have hl := upperSpecial_long (a, us) (lookup_mem _ _ _ hs)
    rw [h] at hl
    simp at hl
  | none =>
    rw [hs] at h
    simp only at h
    cases hf : upperRuns.find? (fun r => decide (r.1 ≤ a ∧ a ≤ r.2.1 ∧ (a - r.1) % r.2.2.2 = 0)) with
    | none =>
      rw [hf] at h
      simp only [List.cons.injEq, and_true] at h
      exact Or.inl h.symm
    | some r =>
      rw [hf] at h
      simp only [List.cons.injEq, and_true] at h
      have hm := List.mem_of_find?_eq_some hf
      have hp := List.find?_some hf
      simp only [decide_eq_true_eq] at hp
      exact Or.inr ⟨r, hm, hp.1, hp.2.1, h.symm⟩

theorem canonicalize_ge (a : Nat) (h : 0xA0 ≤ a) :
    0xA0 ≤ canonicalize unicode14UpperCase a := by
  unfold canonicalize
  split
  · rename_i cu hcu
    split
    · exact h
    · rename_i hnot
      rcases toUpperCase_single a cu hcu with rfl | ⟨r, hr, h1, h2, rfl⟩
      · exact h
      · rcases upperRuns_target r hr with ht | ht
        · omega
        · exfalso; apply hnot; constructor <;> omega
  · exact h

set_option maxRecDepth 100000 in
theorem canonicalize_lt : ∀ c < 0xA0, canonicalize unicode14UpperCase c < 0xA0 ∧
    (canonicalize unicode14UpperCase c ∈ [0x3C, 0x3E, 0x26] → c ∈ [0x3C, 0x3E, 0x26]) := by
  decide

theorem canonicalize_special :
    ∀ a ∈ [0x3C, 0x3E, 0x26], canonicalize unicode14UpperCase a = a := by decide

theorem classMatches_spec (c : Nat) :
    classMatches unicode14UpperCase c = true ↔
      ((0xA0 ≤ c ∧ c ≤ 0x9999) ∨ c = 0x3C ∨ c = 0x3E ∨ c = 0x26) ∨
      (0x9999 < c ∧ ∃ a, 0xA0 ≤ a ∧ a ≤ 0x9999 ∧
        canonicalize unicode14UpperCase a = canonicalize unicode14UpperCase c) := by
  rw [classMatches_iff]
  constructor
  · rintro ⟨a, ha, hac⟩
    rw [mem_classMembers] at ha
    by_cases h1 : c < 0xA0
    · obtain ⟨hlt, hsp⟩ := canonicalize_lt c h1
      rcases ha with ha | ha
      · have := canonicalize_ge a ha.1
        omega
      · have ha2 : a ∈ [0x3C, 0x3E, 0x26] := by simpa using ha
        have hca := canonicalize_special a ha2
        rw [← hac, hca] at hsp
        have := hsp ha2
        left; right
        simpa using this
    · by_cases h2 : c ≤ 0x9999
      · left; left; omega
      · right
        refine ⟨by omega, ?_⟩
        rcases ha with ha | ha
        · exact ⟨a, ha.1, ha.2, hac⟩
        · have ha2 : a ∈ [0x3C, 0x3E, 0x26] := by simpa using ha
          have hca := canonicalize_special a ha2
          have := canonicalize_ge c (by omega)
          rw [← hac, hca] at this
          simp at ha2
          omega
  · rintro (h | ⟨_, a, h1, h2, hac⟩)
    · exact ⟨c, (mem_classMembers c).mpr h, rfl⟩
    · exact ⟨a, (mem_classMembers a).mpr (Or.inl ⟨h1, h2⟩), hac⟩

/-! ### The class for any uppercase table -/

theorem htmlEncode_flatMap {upper : Nat → JSString} (s : JSString) :
    htmlEncode upper s = s.flatMap fun c => if classMatches upper c then charRef c else [c] := by
  induction s with
  | nil => rfl
  | cons c rest ih =>
    rw [htmlEncode, ih, List.flatMap_cons]
    split <;> simp

theorem classMatches_of_member {upper : Nat → JSString} (c : Nat)
    (h : (0xA0 ≤ c ∧ c ≤ 0x9999) ∨ c = 0x3C ∨ c = 0x3E ∨ c = 0x26) :
    classMatches upper c = true :=
  classMatches_iff.mpr ⟨c, (mem_classMembers c).mpr h, rfl⟩

theorem canonicalize_nonAscii {upper : Nat → JSString} (a : Nat) (h : 128 ≤ a) :
    128 ≤ canonicalize upper a := by
  unfold canonicalize
  split
  · split <;> omega
  · exact h

theorem canonicalize_ascii {upper : Nat → JSString} (hu : AsciiUpperCase upper) (c : Nat)
    (hc : c < 128) : canonicalize upper c = if 0x61 ≤ c ∧ c ≤ 0x7A then c - 0x20 else c := by
  unfold canonicalize
  rw [hu c hc]
  simp only
  rw [if_neg (by omega)]

theorem classMatches_ascii {upper : Nat → JSString} (hu : AsciiUpperCase upper) (c : Nat)
    (hc : c < 128) (h1 : c ≠ 0x3C) (h2 : c ≠ 0x3E) (h3 : c ≠ 0x26) :
    classMatches upper c = false := by
  cases hm : classMatches upper c with
  | false => rfl
  | true =>
    exfalso
    obtain ⟨a, ha, hac⟩ := classMatches_iff.mp hm
    rw [mem_classMembers] at ha
    rw [canonicalize_ascii hu c hc] at hac
    rcases ha with ha | ha
    · have := @canonicalize_nonAscii upper a (by omega)
      split at hac <;> omega
    · have ha128 : a < 128 := by omega
      rw [canonicalize_ascii hu a ha128] at hac
      split at hac <;> split at hac <;> omega

theorem htmlEncode_eq_spec {upper : Nat → JSString} (s : JSString)
    (h : ∀ c ∈ s, classMatches upper c = true →
      (0xA0 ≤ c ∧ c ≤ 0x9999) ∨ c = 0x3C ∨ c = 0x3E ∨ c = 0x26) :
    htmlEncode upper s = htmlEncodeSpec s := by
  rw [htmlEncode_flatMap, htmlEncodeSpec]
  apply List.flatMap_congr
  intro c hc
  by_cases hm : classMatches upper c = true
  · rw [if_pos hm, if_pos (h c hc hm)]
    rfl
  · have hQ : ¬ ((0xA0 ≤ c ∧ c ≤ 0x9999) ∨ c = 0x3C ∨ c = 0x3E ∨ c = 0x26) :=
      fun hQ => hm (classMatches_of_member c hQ)
    rw [if_neg hm, if_neg hQ]

theorem htmlEncode_eq_spec_of_ascii {upper : Nat → JSString} (hu : AsciiUpperCase upper)
    (s : JSString) (h : ∀ c ∈ s, c < 128 ∨ (0xA0 ≤ c ∧ c ≤ 0x9999)) :
    htmlEncode upper s = htmlEncodeSpec s := by
  apply htmlEncode_eq_spec
  intro c hc hm
  rcases h c hc with h1 | h1
  · by_cases hsp : c = 0x3C ∨ c = 0x3E ∨ c = 0x26
    · exact Or.inr hsp
    · simp only [not_or] at hsp
      rw [classMatches_ascii hu c h1 hsp.1 hsp.2.1 hsp.2.2] at hm
      exact Bool.noConfusion hm
  · exact Or.inl h1

theorem classMatches_fixed {upper : Nat → JSString} (c : Nat) (hc : 128 ≤ c)
    (hout : ¬ (0xA0 ≤ c ∧ c ≤ 0x9999)) (hfix : upper c = [c]) :
    classMatches upper c = true ↔
      ∃ a, ((0xA0 ≤ a ∧ a ≤ 0x9999) ∨ a = 0x3C ∨ a = 0x3E ∨ a = 0x26) ∧ upper a = [c] := by
  have cc : canonicalize upper c = c := by
    unfold canonicalize
    rw [hfix]
    simp
  rw [classMatches_iff, cc]
  constructor
  · rintro ⟨a, ha, hac⟩
    rw [mem_classMembers] at ha
    refine ⟨a, ha, ?_⟩
    unfold canonicalize at hac
    split at hac
    · rename_i cu heq
      split at hac
      · omega
      · rw [heq, hac]
    · omega
  · rintro ⟨a, ha, hu⟩
    refine ⟨a, (mem_classMembers a).mpr ha, ?_⟩
    unfold canonicalize
    rw [hu]
    simp only
    rw [if_neg (by omega)]

theorem htmlEncode_A77D {upper : Nat → JSString} (h1 : upper 0x1D79 = [0xA77D])
    (h2 : upper 0xA77D = [0xA77D]) : htmlEncode upper [0xA77D] = str "&#42877;" := by
  have c1 : canonicalize upper 0x1D79 = 0xA77D := by
    unfold canonicalize
    rw [h1]
    simp
  have c2 : canonicalize upper 0xA77D = 0xA77D := by
    unfold canonicalize
    rw [h2]
    simp
  have hm : classMatches upper 0xA77D = true :=
    classMatches_iff.mpr
      ⟨0x1D79, (mem_classMembers 0x1D79).mpr (Or.inl (by omega)), by rw [c1, c2]⟩
  rw [htmlEncode_flatMap]
  simp only [List.flatMap_cons, List.flatMap_nil, hm, if_true, List.append_nil]
  decide

set_option maxRecDepth 100000 in
theorem unicode14_ascii : AsciiUpperCase unicode14UpperCase := by
  unfold AsciiUpperCase
  decide

/-- C7, amended: `htmlEncode` replaces exactly the code units the class
matches under the `i` flag by `&#` + decimal code + `;` and copies the others.
Whatever the uppercase table of the engine is, the class matches every code
unit in U+00A0..U+9999 and `<`, `>`, `&`, and it matches a code unit exactly
when its canonical form is that of one of those. When the table is ASCII
uppercase on ASCII, no other ASCII code unit is matched, and on a string of
ASCII and U+00A0..U+9999 code units the result is the one the specification
states. A code unit from U+0080 on that lies outside U+00A0..U+9999 and is
its own uppercase form is matched exactly when the table gives it as the
uppercase form of a code unit of the class; so when the table maps U+1D79 to
U+A77D, the code unit U+A77D, above U+9999, is replaced. -/
theorem htmlEncode_caseInsensitive (upper : Nat → JSString) (s : JSString) :
    htmlEncode upper s =
        (s.flatMap fun c =>
          if classMatches upper c then str "&#" ++ decimal c ++ str ";" else [c]) ∧
      (∀ c, (0xA0 ≤ c ∧ c ≤ 0x9999) ∨ c = 0x3C ∨ c = 0x3E ∨ c = 0x26 →
        classMatches upper c = true) ∧
      (∀ c, classMatches upper c = true ↔
        ∃ a, ((0xA0 ≤ a ∧ a ≤ 0x9999) ∨ a = 0x3C ∨ a = 0x3E ∨ a = 0x26) ∧
          canonicalize upper a = canonicalize upper c) ∧
      (AsciiUpperCase upper →
        ∀ c, c < 128 → c ≠ 0x3C → c ≠ 0x3E → c ≠ 0x26 → classMatches upper c = false) ∧
      (AsciiUpperCase upper → (∀ c ∈ s, c < 128 ∨ (0xA0 ≤ c ∧ c ≤ 0x9999)) →
        htmlEncode upper s = htmlEncodeSpec s) ∧
      (∀ c, 128 ≤ c → ¬ (0xA0 ≤ c ∧ c ≤ 0x9999) → upper c = [c] →
        (classMatches upper c = true ↔
          ∃ a, ((0xA0 ≤ a ∧ a ≤ 0x9999) ∨ a = 0x3C ∨ a = 0x3E ∨ a = 0x26) ∧ upper a = [c])) ∧
      (upper 0x1D79 = [0xA77D] → upper 0xA77D = [0xA77D] →
        htmlEncode upper [0xA77D] = str "&#42877;") := by
  refine ⟨htmlEncode_flatMap s, fun c h => classMatches_of_member c h, fun c => ?_,
    fun hu c => classMatches_ascii hu c, fun hu h => htmlEncode_eq_spec_of_ascii hu s h,
    fun c => classMatches_fixed c, htmlEncode_A77D⟩
  rw [classMatches_iff]
  constructor
  · rintro ⟨a, ha, hac⟩
    exact ⟨a, (mem_classMembers a).mp ha, hac⟩
  · rintro ⟨a, ha, hac⟩
    exact ⟨a, (mem_classMembers a).mpr ha, hac⟩

/-- C7, witness: with the table of Unicode 14.0, the example of the
specification and the code unit U+A77D. -/
theorem htmlEncode_caseInsensitive_witness :
    AsciiUpperCase unicode14UpperCase ∧
      (∀ c ∈ str "<a>&", c < 128 ∨ (0xA0 ≤ c ∧ c ≤ 0x9999)) ∧
      htmlEncode unicode14UpperCase (str "<a>&") = str "&#60;a&#62;&#38;" ∧
      unicode14UpperCase 0x1D79 = [0xA77D] ∧ unicode14UpperCase 0xA77D = [0xA77D] ∧
      classMatches unicode14UpperCase 0xA77D = true ∧
      htmlEncode unicode14UpperCase [0xA77D] = str "&#42877;" :=
  have h := htmlEncode_caseInsensitive unicode14UpperCase (str "<a>&")
  have h1 : unicode14UpperCase 0x1D79 = [0xA77D] := by decide
  have h2 : unicode14UpperCase 0xA77D = [0xA77D] := by decide
  ⟨unicode14_ascii, by decide, (h.2.2.2.2.1 unicode14_ascii (by decide)).trans (by decide),
    h1, h2,
    (h.2.2.2.2.2.1 0xA77D (by decide) (by decide) h2).mpr ⟨0x1D79, Or.inl (by decide), h1⟩,
    h.2.2.2.2.2.2 h1 h2⟩

/-- C7, counterexample: on an engine with the table of Unicode 14.0, U+A77D
lies above U+9999 and is replaced by `&#42877;`, because U+1D79 in the range
has it as its uppercase form; the specification's wording leaves it
unchanged. -/
theorem htmlEncode_above_range_replaced :
    htmlEncode unicode14UpperCase [0xA77D] = str "&#42877;" ∧
      htmlEncodeSpec [0xA77D] = [0xA77D] ∧
      htmlEncode unicode14UpperCase [0xA77D] ≠ htmlEncodeSpec [0xA77D] := by
  have h1 : htmlEncode unicode14UpperCase [0xA77D] = str "&#42877;" :=
    htmlEncode_A77D (by decide) (by decide)
  have h2 : htmlEncodeSpec [0xA77D] = [0xA77D] := by decide
  exact ⟨h1, h2, by rw [h1, h2]; decide⟩

/-! ## The `json` output -/

theorem set_const (ks : List JSString) (key data : JSString) (h : key ≠ str "__proto__") :
    JSObject.set (ks.map fun k => (k, data)) key data =
      (if key ∈ ks then ks else ks ++ [key]).map fun k => (k, data) := by
  unfold JSObject.set
  rw [if_neg h]
  by_cases hk : key ∈ ks
  · have hany : ((ks.map fun k => (k, data)).any fun p => decide (p.1 = key)) = true := by
      simp [List.any_eq_true, hk]
    rw [if_pos hany, if_pos hk, List.map_map]
    apply List.map_congr_left
    intro k _
    by_cases hkk : k = key <;> simp [hkk]
  · have hany : ¬ ((ks.map fun k => (k, data)).any fun p => decide (p.1 = key)) = true := by
      simp [List.any_eq_true, hk]
    rw [if_neg hany, if_neg hk]
    simp

theorem assignAll_eq (params : List JSString) (data : JSString)
    (h : str "__proto__" ∉ params) :
    assignAll params data = (distinctNames params).map fun k => (k, data) := by
  unfold assignAll distinctNames
  induction params using List.reverseRecOn with
  | nil => rfl
  | append_singleton init p ih =>
    have hp : p ≠ str "__proto__" := fun hp => h (by simp [hp])
    have hi : str "__proto__" ∉ init := fun hi => h (by simp [hi])
    rw [List.foldl_append, List.foldl_cons, List.foldl_nil, ih hi, set_const _ _ _ hp]
    congr 1
    rw [List.reverse_append, List.reverse_singleton, List.singleton_append]
    by_cases hm : p ∈ init
    · have hm2 : p ∈ init.reverse := by simpa using hm
      rw [List.dedup_cons_of_mem hm2]
      simp [hm]
    · have hm2 : p ∉ init.reverse := by simpa using hm
      rw [List.dedup_cons_of_not_mem hm2]
      simp [hm]

theorem lookup_const (ks : List JSString) (key data : JSString) (h : key ∈ ks) :
    (ks.map fun k => (k, data)).lookup key = some data := by
  induction ks with
  | nil => simp at h
  | cons k rest ih =>
    rw [List.map_cons, List.lookup_cons]
    by_cases hk : key = k
    · simp [hk]
    · have : (key == k) = false := by simpa using hk
      rw [this]
      exact ih (by simpa [hk] using h)

theorem arrayIndex?_decimal (key : JSString) (n : Nat) (h : arrayIndex? key = some n) :
    decimal n = key := by
  unfold arrayIndex? at h
  simp only at h
  split at h
  · rename_i hc
    simp only [Option.some.injEq] at h
    rw [← h]
    exact hc.1
  · simp at h

theorem map_decimal_filterMap (ks : List JSString) :
    (ks.filterMap arrayIndex?).map decimal = ks.filter fun k => (arrayIndex? k).isSome := by
  induction ks with
  | nil => rfl
  | cons k rest ih =>
    cases hk : arrayIndex? k with
    | none => simp [List.filterMap_cons, List.filter_cons, hk, ih]
    | some n => simp [List.filterMap_cons, List.filter_cons, hk, ih, arrayIndex?_decimal k n hk]

theorem keyOrder_perm (ks : List JSString) : (keyOrder ks).Perm ks := by
  unfold keyOrder
  have h1 : (((ks.filterMap arrayIndex?).insertionSort fun a b => a ≤ b).map decimal).Perm
      (ks.filter fun k => (arrayIndex? k).isSome) := by
    rw [← map_decimal_filterMap]
    exact (List.perm_insertionSort _ _).map _
  have h2 : (ks.filter fun k => (arrayIndex? k).isNone) =
      ks.filter fun k => !(arrayIndex? k).isSome := by
    congr 1; funext k; cases arrayIndex? k <;> rfl
  simp only
  rw [h2]
  exact (h1.append_right _).trans (List.filter_append_perm _ ks)

theorem filterMap_eq_map_of_some {α β : Type} (f : α → Option β) (g : α → β) (l : List α)
    (h : ∀ x ∈ l, f x = some (g x)) : l.filterMap f = l.map g := by
  induction l with
  | nil => rfl
  | cons x rest ih =>
    rw [List.filterMap_cons, h x (List.mem_cons_self x rest), List.map_cons,
      ih fun y hy => h y (List.mem_cons_of_mem x hy)]

theorem stringify_const (ks : List JSString) (data : JSString) :
    stringify (ks.map fun k => (k, data)) = jsonText (keyOrder ks) data := by
  unfold stringify ownKeys jsonText
  simp only [List.map_map, Function.comp_def, List.map_id_fun, id]
  have hm : ((keyOrder ks).filterMap fun key =>
      ((ks.map fun k => (k, data)).lookup key).map fun value =>
        quoteJSONString key ++ str ": " ++ quoteJSONString value) =
      (keyOrder ks).map fun key => quoteJSONString key ++ str ": " ++ quoteJSONString data := by
    apply filterMap_eq_map_of_some
    intro k hk
    rw [lookup_const ks k data ((keyOrder_perm ks).mem_iff.mp hk)]
    rfl
  rw [show (List.map (fun x => x) ks) = ks from List.map_id _]
  rw [hm, join_eq_intercalate]
  cases hko : keyOrder ks with
  | nil => simp
  | cons k rest => simp

theorem digitChar_toNat (k : Nat) (h : k < 10) : (Nat.digitChar k).toNat - 0x30 = k := by
  interval_cases k <;> rfl

theorem parse_toDigitsCore (fuel n : Nat) (ds : List Char) (h : n < fuel) :
    ((Nat.toDigitsCore 10 fuel n ds).map Char.toNat).foldl
        (fun acc d => 10 * acc + (d - 0x30)) 0 =
      (ds.map Char.toNat).foldl (fun acc d => 10 * acc + (d - 0x30)) n := by
  induction fuel generalizing n ds with
  | zero => omega
  | succ fuel ih =>
    rw [Nat.toDigitsCore]
    split
    · rename_i hz
      rw [List.map_cons, List.foldl_cons, digitChar_toNat _ (Nat.mod_lt _ (by omega))]
      congr 1
      omega
    · rename_i hz
      rw [ih (n / 10) _ (by omega), List.map_cons, List.foldl_cons,
        digitChar_toNat _ (Nat.mod_lt _ (by omega))]
      congr 1
      omega

theorem arrayIndex?_eq_some_iff (key : JSString) (n : Nat) :
    arrayIndex? key = some n ↔ key = decimal n ∧ n < 4294967295 := by
  constructor
  · intro h
    have hd := arrayIndex?_decimal key n h
    unfold arrayIndex? at h
    simp only at h
    split at h
    · rename_i hc
      simp only [Option.some.injEq] at h
      exact ⟨hd.symm, h ▸ hc.2⟩
    · simp at h
  · rintro ⟨rfl, hn⟩
    have hp : (decimal n).foldl (fun acc d => 10 * acc + (d - 0x30)) 0 = n := by
      unfold decimal Nat.toDigits
      rw [parse_toDigitsCore (n + 1) n [] (by omega)]
      rfl
    unfold arrayIndex?
    simp [hp, hn]

theorem distinctNames_nodup (params : List JSString) : (distinctNames params).Nodup := by
  unfold distinctNames
  exact List.nodup_reverse.mpr (List.nodup_dedup _)

theorem mem_distinctNames (params : List JSString) (k : JSString) :
    k ∈ distinctNames params ↔ k ∈ params := by
  simp [distinctNames]

theorem arrayIndex?_eq_none_iff (key : JSString) :
    arrayIndex? key = none ↔ ∀ n, n < 4294967295 → key ≠ decimal n := by
  constructor
  · intro h n hn hk
    have := (arrayIndex?_eq_some_iff key n).mpr ⟨hk, hn⟩
    rw [h] at this
    exact Option.noConfusion this
  · intro h
    cases hk : arrayIndex? key with
    | none => rfl
    | some n =>
      obtain ⟨h1, h2⟩ := (arrayIndex?_eq_some_iff key n).mp hk
      exact absurd h1 (h n h2)

theorem keyOrder_indices (ks : List JSString) (hnd : ks.Nodup) :
    ∃ indices : List Nat,
      keyOrder ks = indices.map decimal ++ ks.filter (fun k => (arrayIndex? k).isNone) ∧
      indices.Sorted (· < ·) ∧
      ∀ n, n ∈ indices ↔ decimal n ∈ ks ∧ n < 4294967295 := by
  refine ⟨(ks.filterMap arrayIndex?).insertionSort fun a b => a ≤ b, rfl, ?_, ?_⟩
  · have hs : ((ks.filterMap arrayIndex?).insertionSort fun a b => a ≤ b).Sorted (· ≤ ·) :=
      List.sorted_insertionSort _ _
    have hn : (ks.filterMap arrayIndex?).Nodup := by
      apply List.Nodup.filterMap _ hnd
      intro a a2 b hb hb2
      have e1 := arrayIndex?_decimal a b hb
      have e2 := arrayIndex?_decimal a2 b hb2
      rw [← e1, ← e2]
    exact hs.lt_of_le (((List.perm_insertionSort _ _).nodup_iff).mpr hn)
  · intro n
    rw [(List.perm_insertionSort _ _).mem_iff, List.mem_filterMap]
    constructor
    · rintro ⟨k, hk, hkn⟩
      obtain ⟨h1, h2⟩ := (arrayIndex?_eq_some_iff k n).mp hkn
      exact ⟨h1 ▸ hk, h2⟩
    · rintro ⟨hk, hn⟩
      exact ⟨decimal n, hk, (arrayIndex?_eq_some_iff _ n).mpr ⟨rfl, hn⟩⟩

/-- C5, amended: for a parameter list without `__proto__`, the output for
`json` is the four-space pretty-printed text (`{}` for no key) whose keys are
the distinct parameter names in enumeration order: the names that are array
indices (canonical decimal integers below `2^32 - 1`) in strictly ascending
numeric order first, then the other names in order of first occurrence. -/
theorem generateUrl_json (xmlbuilder : XmlBuilder) (url : JSString) (params : List JSString)
    (data : JSString) (h : str "__proto__" ∉ params) :
    generateUrl xmlbuilder url params data (str "json") =
        .ok (jsonText (keyOrder (distinctNames params)) data) ∧
      ∃ indices : List Nat,
        keyOrder (distinctNames params) =
          indices.map decimal ++
            (distinctNames params).filter (fun k => (arrayIndex? k).isNone) ∧
        indices.Sorted (· < ·) ∧
        (∀ n, n ∈ indices ↔ decimal n ∈ params ∧ n < 4294967295) ∧
        ∀ k, arrayIndex? k = none ↔ ∀ n, n < 4294967295 → k ≠ decimal n := by
  obtain ⟨indices, h1, h2, h3⟩ := keyOrder_indices (distinctNames params)
    (distinctNames_nodup params)
  refine ⟨?_, indices, h1, h2, fun n => ?_, arrayIndex?_eq_none_iff⟩
  · have e1 : str "json" ≠ str "url" := by decide
    have e2 : str "json" ≠ str "bodyurl" := by decide
    have e3 : str "json" ≠ str "nice" := by decide
    unfold generateUrl
    simp only [e1, e2, e3, or_self, if_false, if_true, false_and]
    rw [assignAll_eq params data h, stringify_const]
    rfl
  · rw [h3 n, mem_distinctNames]

/-- C5, witness: a list with two array-index names and a duplicate. -/
theorem generateUrl_json_witness :
    str "__proto__" ∉ [str "b", str "10", str "a", str "2", str "b"] ∧
    generateUrl throwingBuilder (str "http://x.com") [str "b", str "10", str "a", str "2", str "b"]
        (str "1") (str "json") =
      .ok (str
        "\x7b\n    \"2\": \"1\",\n    \"10\": \"1\",\n    \"b\": \"1\",\n    \"a\": \"1\"\n\x7d") :=
  ⟨by decide,
   (generateUrl_json throwingBuilder (str "http://x.com")
      [str "b", str "10", str "a", str "2", str "b"] (str "1") (by decide)).1.trans (by decide)⟩

/-- C5, counterexample: for the parameters `b`, `10`, `2` the keys come out
as `2`, `10`, `b`, not in parameter-list order. -/
theorem generateUrl_json_integer_keys_first :
    generateUrl throwingBuilder (str "http://x.com") [str "b", str "10", str "2"] (str "1")
        (str "json") =
      .ok (str "\x7b\n    \"2\": \"1\",\n    \"10\": \"1\",\n    \"b\": \"1\"\n\x7d") ∧
    generateUrl throwingBuilder (str "http://x.com") [str "b", str "10", str "2"] (str "1")
        (str "json") ≠
      .ok (jsonText (distinctNames [str "b", str "10", str "2"]) (str "1")) := by
  decide

/-- C4, the code at the failing input: for the single parameter `__proto__`
the output for `json` is `{}`, an object without that key. -/
theorem generateUrl_json_proto_dropped :
    generateUrl throwingBuilder (str "http://x.com") [str "__proto__"] (str "x") (str "json") =
      .ok (str "\x7b\x7d") := by
  decide

theorem generateUrl_xml (xmlbuilder : XmlBuilder) (url : JSString) (params : List JSString)
    (data : JSString) :
    generateUrl xmlbuilder url params data (str "xml") =
      buildObject xmlbuilder (str "root") (assignAll params data) := by
  have h1 : str "xml" ≠ str "url" := by decide
  have h2 : str "xml" ≠ str "bodyurl" := by decide
  have h3 : str "xml" ≠ str "nice" := by decide
  have h4 : str "xml" ≠ str "json" := by decide
  unfold generateUrl
  simp only [h1, h2, h3, h4, or_self, if_false, if_true, false_and]
  cases buildObject xmlbuilder (str "root") (assignAll params data) <;> rfl

/-- C6, the code at the failing input: for the single parameter `a` the
builder is asked for a document whose root element is `a` with the data as
its text, not for a root `root` with a child `a`; with two parameters the
root is `root` with one child each, and with none it is an empty `root`. -/
theorem generateUrl_xml_single_param (xmlbuilder : XmlBuilder) (url : JSString) :
    generateUrl xmlbuilder url [str "a"] (str "1") (str "xml") =
        xmlbuilder (str "a") [.txt (str "1")] ∧
      generateUrl xmlbuilder url [str "a", str "b"] (str "1") (str "xml") =
        xmlbuilder (str "root") [.ele (str "a") (str "1"), .ele (str "b") (str "1")] ∧
      generateUrl xmlbuilder url [] (str "1") (str "xml") = xmlbuilder (str "root") [] := by
  rw [generateUrl_xml, generateUrl_xml, generateUrl_xml]
  exact ⟨rfl, rfl, rfl⟩

/-! ## Unknown output values, the parameter source and `main` -/

/-- C16: for an output value that is none of `url`, `bodyurl`, `nice`, `json`,
`xml`, `generateUrl` returns the empty string and throws nothing, whatever
the url, the parameters and the data are. -/
theorem generateUrl_unknown_output (xmlbuilder : XmlBuilder) (url : JSString)
    (params : List JSString) (data output : JSString)
    (h : output ∉ [str "url", str "bodyurl", str "nice", str "json", str "xml"]) :
    generateUrl xmlbuilder url params data output = .ok [] := by
  simp only [List.mem_cons, List.mem_singleton, List.not_mem_nil, or_false, not_or] at h
  obtain ⟨h1, h2, h3, h4, h5⟩ := h
  unfold generateUrl
  simp only [h1, h2, h3, h4, h5, or_self, if_false, false_and]
  rfl

theorem generateUrl_unknown_output_witness :
    (str "" ∉ [str "url", str "bodyurl", str "nice", str "json", str "xml"] ∧
      generateUrl throwingBuilder (str "http://x.com") [str "a"] (str "1") (str "") = .ok []) ∧
    (str "URL" ∉ [str "url", str "bodyurl", str "nice", str "json", str "xml"] ∧
      generateUrl throwingBuilder (str "http://x.com") [str "a"] (str "1") (str "URL") = .ok []) ∧
    (str "yaml" ∉ [str "url", str "bodyurl", str "nice", str "json", str "xml"] ∧
      generateUrl throwingBuilder (str "http://x.com") [str "a"] (str "1") (str "yaml") =
        .ok []) :=
  ⟨⟨by decide, generateUrl_unknown_output _ _ _ _ _ (by decide)⟩,
   ⟨by decide, generateUrl_unknown_output _ _ _ _ _ (by decide)⟩,
   ⟨by decide, generateUrl_unknown_output _ _ _ _ _ (by decide)⟩⟩

theorem truthy_eq_some (value : Option JSString) (s : JSString) :
    truthy value = some s ↔ value = some s ∧ s ≠ [] := by
  unfold truthy
  cases value with
  | none => simp
  | some v =>
    by_cases hv : v = []
    · subst hv
      simp only [if_true]
      constructor
      · intro h; exact Option.noConfusion h
      · rintro ⟨h1, h2⟩
        exact absurd (Option.some.inj h1).symm h2
    · simp only [hv, if_false, Option.some.injEq]
      constructor
      · rintro rfl; exact ⟨rfl, hv⟩
      · rintro ⟨h1, _⟩; exact h1

theorem truthy_eq_none (value : Option JSString) :
    truthy value = none ↔ value = none ∨ value = some [] := by
  unfold truthy
  cases value with
  | none => simp
  | some v =>
    by_cases hv : v = []
    · simp [hv]
    · simp [hv]

theorem split_ne_nil (s : JSString) (sep : Nat) : split s sep ≠ [] := by
  induction s with
  | nil => simp [split]
  | cons c rest ih =>
    rw [split]
    split
    · simp
    · split <;> simp

theorem join_cons_cons (x y : JSString) (rest : List JSString) (sep : JSString) :
    join (x :: y :: rest) sep = x ++ sep ++ join (y :: rest) sep := by
  rw [join]

theorem join_split (s : JSString) (sep : Nat) : join (split s sep) [sep] = s := by
  induction s with
  | nil => rfl
  | cons c rest ih =>
    rw [split]
    by_cases hc : c = sep
    · rw [if_pos hc]
      cases hs : split rest sep with
      | nil => exact absurd hs (split_ne_nil rest sep)
      | cons p ps =>
        rw [join_cons_cons, ← hs, ih, hc]
        rfl
    · rw [if_neg hc]
      cases hs : split rest sep with
      | nil => exact absurd hs (split_ne_nil rest sep)
      | cons p ps =>
        rw [hs] at ih
        simp only
        cases ps with
        | nil =>
          simp only [join] at ih ⊢
          rw [ih]
        | cons p2 ps2 =>
          rw [join_cons_cons] at ih ⊢
          rw [← ih]
          simp

theorem split_pieces (s : JSString) (sep : Nat) : ∀ piece ∈ split s sep, sep ∉ piece := by
  induction s with
  | nil => simp [split]
  | cons c rest ih =>
    rw [split]
    by_cases hc : c = sep
    · rw [if_pos hc]
      intro piece hp
      rcases List.mem_cons.mp hp with rfl | hp
      · simp
      · exact ih piece hp
    · rw [if_neg hc]
      cases hs : split rest sep with
      | nil => exact absurd hs (split_ne_nil rest sep)
      | cons p ps =>
        rw [hs] at ih
        simp only
        intro piece hp
        rcases List.mem_cons.mp hp with rfl | hp
        · intro hmem
          rcases List.mem_cons.mp hmem with h | h
          · exact hc h.symm
          · exact ih p (List.mem_cons_self p ps) h
        · exact ih piece (List.mem_cons_of_mem p hp)

theorem split_append_sep (a b : JSString) (sep : Nat) (ha : sep ∉ a) :
    split (a ++ sep :: b) sep = a :: split b sep := by
  induction a with
  | nil => simp [split]
  | cons c rest ih =>
    have hc : c ≠ sep := fun h => ha (by simp [h])
    have hr : sep ∉ rest := fun h => ha (List.mem_cons_of_mem c h)
    rw [List.cons_append, split, if_neg hc, ih hr]

theorem split_of_not_mem (a : JSString) (sep : Nat) (ha : sep ∉ a) : split a sep = [a] := by
  induction a with
  | nil => rfl
  | cons c rest ih =>
    have hc : c ≠ sep := fun h => ha (by simp [h])
    have hr : sep ∉ rest := fun h => ha (List.mem_cons_of_mem c h)
    rw [split, if_neg hc, ih hr]

theorem split_join (xs : List JSString) (sep : Nat) (hne : xs ≠ [])
    (h : ∀ x ∈ xs, sep ∉ x) : split (join xs [sep]) sep = xs := by
  induction xs with
  | nil => exact absurd rfl hne
  | cons x rest ih =>
    cases rest with
    | nil =>
      rw [join]
      exact split_of_not_mem x sep (h x (List.mem_cons_self x _))
    | cons y rest2 =>
      rw [join_cons_cons, List.append_assoc, List.singleton_append,
        split_append_sep x _ sep (h x (List.mem_cons_self x _)),
        ih (by simp) fun z hz => h z (List.mem_cons_of_mem x hz)]

theorem includes_iff (s sub : JSString) : includes s sub = true ↔ sub <:+: s := by
  unfold includes
  rw [List.any_eq_true]
  constructor
  · rintro ⟨t, ht, hp⟩
    rw [List.mem_tails] at ht
    rw [List.isPrefixOf_iff_prefix] at hp
    exact hp.isInfix.trans ht.isInfix
  · intro h
    obtain ⟨t, hp, hs⟩ := List.infix_iff_prefix_suffix.mp h
    exact ⟨t, (List.mem_tails _ _).mpr hs, List.isPrefixOf_iff_prefix.mpr hp⟩

theorem readParamsFromFile_error (host : Host) (path : JSString) (count : Option JSString)
    (e : JSError) (h : (readParamsFromFile host path count).2 = .error e) :
    e = .error (str "Error reading params file:") := by
  unfold readParamsFromFile at h
  split at h
  · exact Except.noConfusion h
  · split at h
    · exact Except.noConfusion h
    · simp only [Except.error.injEq] at h
      exact h.symm

theorem resolveParams_error (host : Host) (paramInput count : Option JSString) (e : JSError)
    (h : (resolveParams host paramInput count).2 = .error e) :
    e = .error (str "Error reading params file:") := by
  unfold resolveParams at h
  split at h
  · exact Except.noConfusion h
  · split at h
    · exact readParamsFromFile_error host _ count e h
    · exact Except.noConfusion h

theorem except_map_error {α β : Type} (x : Except JSError α) (f : α → β) (e : JSError)
    (h : x.map f = .error e) : x = .error e := by
  cases x with
  | error e2 => simpa [Except.map] using h
  | ok a => simp [Except.map] at h

theorem encodeURIComponent_error_aux (e : JSError) : ∀ (n : Nat) (data : JSString),
    data.length ≤ n → encodeURIComponent data = .error e → e = .uriError := by
  intro n
  induction n with
  | zero =>
    intro data hl h
    have : data = [] := List.length_eq_zero.mp (Nat.le_zero.mp hl)
    subst this
    rw [encodeURIComponent.eq_def] at h
    exact Except.noConfusion h
  | succ n ih =>
    intro data hl h
    cases data with
    | nil =>
      rw [encodeURIComponent.eq_def] at h
      exact Except.noConfusion h
    | cons c rest =>
      have hr : rest.length ≤ n := by simpa using hl
      rw [encodeURIComponent.eq_def] at h
      simp only at h
      split at h
      · exact ih rest hr (except_map_error _ _ _ h)
      · split at h
        · simp only [Except.error.injEq] at h
          exact h.symm
        · split at h
          · split at h
            · simp only [Except.error.injEq] at h
              exact h.symm
            · rename_i d rest2
              split at h
              · exact ih rest2 (by simp at hr; omega) (except_map_error _ _ _ h)
              · simp only [Except.error.injEq] at h
                exact h.symm
          · exact ih rest hr (except_map_error _ _ _ h)

theorem encodeURIComponent_error (data : JSString) (e : JSError)
    (h : encodeURIComponent data = .error e) : e = .uriError :=
  encodeURIComponent_error_aux e data.length data (Nat.le_refl _) h

theorem preprocessData_error {upper : Nat → JSString} (data encode : JSString) (e : JSError)
    (h : preprocessData upper data encode = .error e) : e = .uriError := by
  unfold preprocessData at h
  split at h
  · exact encodeURIComponent_error _ e h
  · split at h
    · cases h1 : encodeURIComponent data with
      | error e1 =>
        rw [h1] at h
        have : e1 = e := by simpa [bind, Except.bind] using h
        exact this ▸ encodeURIComponent_error _ e1 h1
      | ok r =>
        rw [h1] at h
        exact encodeURIComponent_error r e (by simpa [bind, Except.bind] using h)
    · split at h
      · exact Except.noConfusion h
      · split at h
        · exact Except.noConfusion h
        · split at h
          · exact encodeURIComponent_error _ e h
          · exact Except.noConfusion h

theorem buildObject_error (xmlbuilder : XmlBuilder) (rootName : JSString) (obj : JSObject)
    (e : JSError) (h : buildObject xmlbuilder rootName obj = .error e) :
    ∃ root calls, xmlbuilder root calls = .error e := by
  unfold buildObject at h
  simp only at h
  split at h
  · exact ⟨_, _, h⟩
  · exact ⟨_, _, h⟩

theorem generateUrl_ok_of_ne_xml (xmlbuilder : XmlBuilder) (url : JSString)
    (params : List JSString) (data output : JSString) (hx : output ≠ str "xml") :
    ∃ r, generateUrl xmlbuilder url params data output = .ok r := by
  unfold generateUrl
  simp only [hx, if_false]
  split_ifs <;> exact ⟨_, rfl⟩

theorem generateUrl_error (xmlbuilder : XmlBuilder) (url : JSString) (params : List JSString)
    (data output : JSString) (e : JSError)
    (h : generateUrl xmlbuilder url params data output = .error e) :
    ∃ root calls, xmlbuilder root calls = .error e := by
  by_cases hx : output = str "xml"
  · subst hx
    rw [generateUrl_xml] at h
    exact buildObject_error _ _ _ _ h
  · obtain ⟨r, hr⟩ := generateUrl_ok_of_ne_xml xmlbuilder url params data output hx
    rw [hr] at h
    exact Except.noConfusion h

/-- C12: `main` throws the missing-argument error of the first unset
(undefined or empty) option among url, data, output, in that order, and then
prints no output and reads no file; when the three are set, an exception that
is caught comes from reading the parameter file, from the encoder or from the
XML builder, never from the check. -/
theorem main_missing_argument (host : Host) (opts : Options) :
    ((opts.url = none ∨ opts.url = some []) →
      main host opts =
        ⟨[], none, some (.error (str "Missing required argument: -u, --url <url>"))⟩) ∧
    ((∃ url, opts.url = some url ∧ url ≠ []) → (opts.data = none ∨ opts.data = some []) →
      main host opts =
        ⟨[], none, some (.error (str "Missing required argument: -d, --data <data>"))⟩) ∧
    ((∃ url, opts.url = some url ∧ url ≠ []) → (∃ data, opts.data = some data ∧ data ≠ []) →
      (opts.output = none ∨ opts.output = some []) →
      main host opts =
        ⟨[], none, some (.error (str "Missing required argument: -o, --output <output>"))⟩) ∧
    ((∃ url, opts.url = some url ∧ url ≠ []) → (∃ data, opts.data = some data ∧ data ≠ []) →
      (∃ output, opts.output = some output ∧ output ≠ []) →
      ∀ e, (main host opts).stderr = some e →
        e = .error (str "Error reading params file:") ∨ e = .uriError ∨
          ∃ root calls, host.xmlbuilder root calls = .error e) := by
  refine ⟨fun h => ?_, fun ⟨url, hu⟩ h => ?_, fun ⟨url, hu⟩ ⟨data, hd⟩ h => ?_,
    fun ⟨url, hu⟩ ⟨data, hd⟩ ⟨output, ho⟩ e he => ?_⟩
  · unfold main
    rw [(truthy_eq_none _).mpr h]
  · unfold main
    rw [(truthy_eq_some _ _).mpr hu, (truthy_eq_none _).mpr h]
  · unfold main
    rw [(truthy_eq_some _ _).mpr hu, (truthy_eq_some _ _).mpr hd, (truthy_eq_none _).mpr h]
  · have t1 := (truthy_eq_some _ _).mpr hu
    have t2 := (truthy_eq_some _ _).mpr hd
    have t3 := (truthy_eq_some _ _).mpr ho
    cases hr : (resolveParams host opts.params opts.count).2 with
    | error e1 =>
      simp only [main, t1, t2, t3, hr, bind, Except.bind, Option.some.injEq] at he
      exact Or.inl (he ▸ resolveParams_error _ _ _ _ hr)
    | ok params =>
      cases henc : opts.encode with
      | none =>
        cases hg : generateUrl host.xmlbuilder url params data output with
        | error e1 =>
          simp only [main, t1, t2, t3, hr, henc, hg, bind, Except.bind, Option.some.injEq] at he
          exact Or.inr (Or.inr (he ▸ generateUrl_error _ _ _ _ _ _ hg))
        | ok out =>
          simp only [main, t1, t2, t3, hr, henc, hg, bind, Except.bind] at he
          exact Option.noConfusion he
      | some encode =>
        cases hp : preprocessData host.toUpperCase data encode with
        | error e1 =>
          simp only [main, t1, t2, t3, hr, henc, hp, bind, Except.bind, Option.some.injEq] at he
          exact Or.inr (Or.inl (he ▸ preprocessData_error _ _ _ hp))
        | ok dataValue =>
          cases hg : generateUrl host.xmlbuilder url params dataValue output with
          | error e1 =>
            simp only [main, t1, t2, t3, hr, henc, hp, hg, bind, Except.bind,
              Option.some.injEq] at he
            exact Or.inr (Or.inr (he ▸ generateUrl_error _ _ _ _ _ _ hg))
          | ok out =>
            simp only [main, t1, t2, t3, hr, henc, hp, hg, bind, Except.bind] at he
            exact Option.noConfusion he

/-- C12, witness: an absent url, an empty data and an empty output. -/
theorem main_missing_argument_witness :
    main exampleHost ⟨none, some (str "params.txt"), none, none, none, some (str "none")⟩ =
        ⟨[], none, some (.error (str "Missing required argument: -u, --url <url>"))⟩ ∧
    main exampleHost
        ⟨some (str "http://x.com"), some (str "params.txt"), none, some (str ""), none, none⟩ =
        ⟨[], none, some (.error (str "Missing required argument: -d, --data <data>"))⟩ ∧
    main exampleHost
        ⟨some (str "http://x.com"), some (str "params.txt"), none, some (str "1"), some (str ""),
          none⟩ =
        ⟨[], none, some (.error (str "Missing required argument: -o, --output <output>"))⟩ :=
  ⟨(main_missing_argument exampleHost _).1 (Or.inl rfl),
   (main_missing_argument exampleHost _).2.1 ⟨_, rfl, by decide⟩ (Or.inr rfl),
   (main_missing_argument exampleHost _).2.2.1 ⟨_, rfl, by decide⟩ ⟨_, rfl, by decide⟩
     (Or.inr rfl)⟩

theorem resolveParams_of_falsy (host : Host) (paramInput count : Option JSString)
    (h : paramInput = none ∨ paramInput = some []) :
    resolveParams host paramInput count = ([], .ok []) := by
  unfold resolveParams
  rw [(truthy_eq_none _).mpr h]

theorem resolveParams_of_txt (host : Host) (paramInput count : Option JSString)
    (input : JSString) (hi : paramInput = some input) (hne : input ≠ [])
    (hinf : str ".txt" <:+: input) :
    resolveParams host paramInput count = readParamsFromFile host input count := by
  unfold resolveParams
  rw [(truthy_eq_some _ _).mpr ⟨hi, hne⟩]
  simp only
  rw [if_pos ((includes_iff _ _).mpr hinf)]

theorem resolveParams_of_list (host : Host) (paramInput count : Option JSString)
    (input : JSString) (hi : paramInput = some input) (hne : input ≠ [])
    (hinf : ¬ str ".txt" <:+: input) :
    resolveParams host paramInput count = ([], .ok (split input 0x2C)) := by
  unfold resolveParams
  rw [(truthy_eq_some _ _).mpr ⟨hi, hne⟩]
  simp only
  rw [if_neg (fun hc => hinf ((includes_iff _ _).mp hc))]

/-- C13: the parameter list of `main` is empty for an absent or empty params
option, comes from `readParamsFromFile` when the option contains `.txt`
anywhere, and is otherwise the option split on `,`: joining the names with
`,` gives the option back and no name holds a `,`. -/
theorem resolveParams_dispatch (host : Host) (paramInput count : Option JSString) :
    ((paramInput = none ∨ paramInput = some []) →
      resolveParams host paramInput count = ([], .ok [])) ∧
    (∀ input, paramInput = some input → input ≠ [] → str ".txt" <:+: input →
      resolveParams host paramInput count = readParamsFromFile host input count) ∧
    (∀ input, paramInput = some input → input ≠ [] → ¬ str ".txt" <:+: input →
      resolveParams host paramInput count = ([], .ok (split input 0x2C)) ∧
        join (split input 0x2C) (str ",") = input ∧
        ∀ name ∈ split input 0x2C, 0x2C ∉ name) := by
  exact ⟨resolveParams_of_falsy host paramInput count,
    resolveParams_of_txt host paramInput count,
    fun input hi hne hinf => ⟨resolveParams_of_list host paramInput count input hi hne hinf,
      join_split input 0x2C, split_pieces input 0x2C⟩⟩

/-- C13, witness: three values that contain `.txt` and a comma list with a
blank and an empty name. -/
theorem resolveParams_dispatch_witness :
    (str ".txt" <:+: str "notes.txt.bak" ∧
      resolveParams exampleHost (some (str "notes.txt.bak")) none =
        readParamsFromFile exampleHost (str "notes.txt.bak") none) ∧
    (str ".txt" <:+: str "my.txt-params" ∧
      resolveParams exampleHost (some (str "my.txt-params")) none =
        readParamsFromFile exampleHost (str "my.txt-params") none) ∧
    (str ".txt" <:+: str "a.txt,b" ∧
      resolveParams exampleHost (some (str "a.txt,b")) none =
        readParamsFromFile exampleHost (str "a.txt,b") none) ∧
    (¬ str ".txt" <:+: str "a, b,,c" ∧
      resolveParams exampleHost (some (str "a, b,,c")) none =
        ([], .ok [str "a", str " b", str "", str "c"])) :=
  have h1 : str ".txt" <:+: str "notes.txt.bak" := (includes_iff _ _).mp (by decide)
  have h2 : str ".txt" <:+: str "my.txt-params" := (includes_iff _ _).mp (by decide)
  have h3 : str ".txt" <:+: str "a.txt,b" := (includes_iff _ _).mp (by decide)
  have h4 : ¬ str ".txt" <:+: str "a, b,,c" := fun h =>
    absurd ((includes_iff _ _).mpr h) (by decide)
  ⟨⟨h1, (resolveParams_dispatch exampleHost _ none).2.1 _ rfl (by decide) h1⟩,
   ⟨h2, (resolveParams_dispatch exampleHost _ none).2.1 _ rfl (by decide) h2⟩,
   ⟨h3, (resolveParams_dispatch exampleHost _ none).2.1 _ rfl (by decide) h3⟩,
   ⟨h4, ((resolveParams_dispatch exampleHost _ none).2.2 _ rfl (by decide) h4).1.trans
     (by decide)⟩⟩

/-- C14: for a readable file and a provided count whose numeric value is a
positive integer `n`, `readParamsFromFile` returns the first `min n k` of the
`k` pieces of the text split on the newline character; without a count it
returns all pieces; joining the pieces with a newline gives the text back, so
no piece is trimmed or dropped. -/
theorem readParamsFromFile_count (host : Host) (path text : JSString)
    (hp : path ≠ []) (hr : host.readFileSync path = .ok text) :
    (∀ (count : JSString) (n : Nat), count ≠ [] →
      host.toIntegerOrInfinity count = .finite n → 0 < n →
      (readParamsFromFile host path (some count)).2 = .ok ((split text 0x0A).take n) ∧
        ((split text 0x0A).take n).length = min n (split text 0x0A).length) ∧
    (readParamsFromFile host path none).2 = .ok (split text 0x0A) ∧
    join (split text 0x0A) (str "\n") = text := by
  refine ⟨fun count n hc hn hpos => ⟨?_, ?_⟩, ?_, join_split text 0x0A⟩
  · unfold readParamsFromFile
    rw [if_neg hp, hr]
    simp only [hc, if_false, hn, slice]
    have h0 : ¬ ((n : Int) < 0) := by omega
    rw [if_neg h0]
    congr 1
    by_cases hle : n ≤ (split text 0x0A).length
    · have : min (n : Int) ((split text 0x0A).length : Int) = (n : Int) := by omega
      rw [this, Int.toNat_ofNat]
    · have : min (n : Int) ((split text 0x0A).length : Int) =
          ((split text 0x0A).length : Int) := by omega
      rw [this, Int.toNat_ofNat, List.take_of_length_le (Nat.le_refl _),
        List.take_of_length_le (by omega)]
  · exact List.length_take _ _
  · unfold readParamsFromFile
    rw [if_neg hp, hr]
    rfl

/-- C14, witness: a file of three lines with a final newline, counts 2 and 9
and no count. -/
theorem readParamsFromFile_count_witness :
    (readParamsFromFile exampleHost (str "params.txt") (some (str "2"))).2 =
        .ok [str "a", str "b"] ∧
      (readParamsFromFile exampleHost (str "params.txt") (some (str "9"))).2 =
        .ok [str "a", str "b", str "c", str ""] ∧
      (readParamsFromFile exampleHost (str "params.txt") none).2 =
        .ok [str "a", str "b", str "c", str ""] :=
  have h := readParamsFromFile_count exampleHost (str "params.txt") (str "a\nb\nc\n")
    (by decide) rfl
  ⟨((h.1 (str "2") 2 (by decide) (by decide) (by decide)).1).trans (by decide),
   ((h.1 (str "9") 9 (by decide) (by decide) (by decide)).1).trans (by decide),
   h.2.1.trans (by decide)⟩

/-- C15: when the params option contains `.txt` and the file cannot be read,
`readParamsFromFile` throws, and `main` calls `console.log` with nothing and
`console.error` with the message of an `Error`. -/
theorem main_unreadable_file (host : Host) (opts : Options) (input message : JSString)
    (hi : opts.params = some input) (hinf : str ".txt" <:+: input)
    (hr : host.readFileSync input = .error message) :
    (readParamsFromFile host input opts.count).2 =
        .error (.error (str "Error reading params file:")) ∧
      (main host opts).stdout = none ∧
      ∃ text, (main host opts).stderr = some (.error text) := by
  have hne : input ≠ [] := by
    intro h
    rw [h] at hinf
    have := List.IsInfix.length_le hinf
    exact absurd this (by decide)
  have hread : readParamsFromFile host input opts.count =
      ([input], .error (.error (str "Error reading params file:"))) := by
    unfold readParamsFromFile
    rw [if_neg hne, hr]
  have hres : resolveParams host opts.params opts.count =
      ([input], .error (.error (str "Error reading params file:"))) := by
    rw [resolveParams_of_txt host opts.params opts.count input hi hne hinf, hread]
  refine ⟨by rw [hread], ?_⟩
  unfold main
  cases h1 : truthy opts.url with
  | none => exact ⟨rfl, _, rfl⟩
  | some url =>
    cases h2 : truthy opts.data with
    | none => exact ⟨rfl, _, rfl⟩
    | some data =>
      cases h3 : truthy opts.output with
      | none => exact ⟨rfl, _, rfl⟩
      | some output =>
        simp [hres, bind, Except.bind]

/-- C15, witness: a missing file with the required options set. -/
theorem main_unreadable_file_witness :
    str ".txt" <:+: str "missing.txt" ∧
      exampleHost.readFileSync (str "missing.txt") =
        .error (str "ENOENT: no such file or directory, open 'missing.txt'") ∧
      (main exampleHost ⟨some (str "http://x.com"), some (str "missing.txt"), none,
          some (str "1"), some (str "url"), some (str "none")⟩).stdout = none ∧
      main exampleHost ⟨some (str "http://x.com"), some (str "missing.txt"), none,
          some (str "1"), some (str "url"), some (str "none")⟩ =
        ⟨[str "missing.txt"], none, some (.error (str "Error reading params file:"))⟩ :=
  have hinf : str ".txt" <:+: str "missing.txt" := (includes_iff _ _).mp (by decide)
  have hr : exampleHost.readFileSync (str "missing.txt") =
      .error (str "ENOENT: no such file or directory, open 'missing.txt'") := by decide
  have h := main_unreadable_file exampleHost
    ⟨some (str "http://x.com"), some (str "missing.txt"), none, some (str "1"),
      some (str "url"), some (str "none")⟩ (str "missing.txt") _ rfl hinf hr
  ⟨hinf, hr, h.2.1, by decide⟩

/-- C17, the code at the failing input: the file system reports
`ENOENT: no such file or directory, open 'missing.txt'`, and the error
`readParamsFromFile` throws, which `main` prints, has the message
`Error reading params file:` without that text. -/
theorem readParamsFromFile_message_dropped :
    exampleHost.readFileSync (str "missing.txt") =
        .error (str "ENOENT: no such file or directory, open 'missing.txt'") ∧
      (readParamsFromFile exampleHost (str "missing.txt") none).2 =
        .error (.error (str "Error reading params file:")) ∧
      JSError.message? (.error (str "Error reading params file:")) =
        some (str "Error reading params file:") ∧
      includes (str "Error reading params file:")
        (str "ENOENT: no such file or directory, open 'missing.txt'") = false ∧
      (main exampleHost ⟨some (str "http://x.com"), some (str "missing.txt"), none,
          some (str "1"), some (str "url"), some (str "none")⟩).stderr =
        some (.error (str "Error reading params file:")) := by
  decide

theorem digitChar_isDigit (k : Nat) (h : k < 10) :
    isDecimalDigit (Nat.digitChar k).toNat = true := by
  interval_cases k <;> rfl

theorem toDigitsCore_digits (fuel n : Nat) (ds : List Char)
    (hds : ∀ ch ∈ ds, isDecimalDigit ch.toNat = true) :
    ∀ ch ∈ Nat.toDigitsCore 10 fuel n ds, isDecimalDigit ch.toNat = true := by
  induction fuel generalizing n ds with
  | zero => simpa [Nat.toDigitsCore] using hds
  | succ fuel ih =>
    rw [Nat.toDigitsCore]
    have hd := digitChar_isDigit (n % 10) (Nat.mod_lt _ (by omega))
    have hcons : ∀ ch ∈ Nat.digitChar (n % 10) :: ds, isDecimalDigit ch.toNat = true := by
      intro ch hch
      rcases List.mem_cons.mp hch with rfl | hch
      · exact hd
      · exact hds ch hch
    split
    · exact hcons
    · exact ih _ _ hcons

theorem toDigitsCore_ne_nil (fuel n : Nat) (ds : List Char) (hf : 0 < fuel) :
    Nat.toDigitsCore 10 fuel n ds ≠ [] := by
  induction fuel generalizing n ds with
  | zero => omega
  | succ fuel ih =>
    rw [Nat.toDigitsCore]
    split
    · simp
    · cases fuel with
      | zero => simp [Nat.toDigitsCore]
      | succ f => exact ih _ _ (by omega)

theorem decimal_digits (n : Nat) : ∀ c ∈ decimal n, isDecimalDigit c = true := by
  intro c hc
  unfold decimal Nat.toDigits at hc
  obtain ⟨ch, hch, rfl⟩ := List.mem_map.mp hc
  exact toDigitsCore_digits _ _ [] (by simp) ch hch

theorem decimal_ne_nil (n : Nat) : decimal n ≠ [] := by
  unfold decimal Nat.toDigits
  intro h
  exact toDigitsCore_ne_nil (n + 1) n [] (by omega) (List.map_eq_nil_iff.mp h)

theorem takeWhile_append_stop (f : Nat → Bool) (p t : JSString) (y : Nat)
    (hp : ∀ x ∈ p, f x = true) (hy : f y = false) :
    (p ++ y :: t).takeWhile f = p ∧ (p ++ y :: t).dropWhile f = y :: t := by
  induction p with
  | nil => simp [List.takeWhile, List.dropWhile, hy]
  | cons x rest ih =>
    have hx := hp x (List.mem_cons_self x rest)
    have ih2 := ih fun z hz => hp z (List.mem_cons_of_mem x hz)
    simp [List.takeWhile, List.dropWhile, hx, ih2.1, ih2.2]

theorem startsWithCharRef_charRef (c : Nat) (t : JSString) :
    startsWithCharRef (charRef c ++ t) = true := by
  have h : charRef c ++ t = 0x26 :: 0x23 :: (decimal c ++ 0x3B :: t) := by
    simp [charRef, show str "&#" = [0x26, 0x23] from rfl, show str ";" = [0x3B] from rfl]
  obtain ⟨h1, h2⟩ := takeWhile_append_stop isDecimalDigit (decimal c) t 0x3B
    (decimal_digits c) (by decide)
  rw [h, startsWithCharRef, h1, h2]
  have hne := decimal_ne_nil c
  cases hd : decimal c with
  | nil => exact absurd hd hne
  | cons d ds => rfl

theorem ampersandsAreCharRefs_append (p t : JSString) (hp : 0x26 ∉ p) :
    ampersandsAreCharRefs (p ++ t) = ampersandsAreCharRefs t := by
  induction p with
  | nil => rfl
  | cons x rest ih =>
    have hx : x ≠ 0x26 := fun h => hp (by simp [h])
    have hr : 0x26 ∉ rest := fun h => hp (List.mem_cons_of_mem x h)
    rw [List.cons_append, ampersandsAreCharRefs, ih hr]
    simp [hx]

theorem classMatches_special {upper : Nat → JSString} :
    classMatches upper 0x26 = true ∧ classMatches upper 0x3C = true ∧
      classMatches upper 0x3E = true :=
  ⟨classMatches_of_member _ (by omega), classMatches_of_member _ (by omega),
    classMatches_of_member _ (by omega)⟩

theorem ampersandsAreCharRefs_htmlEncode {upper : Nat → JSString} (s : JSString) :
    ampersandsAreCharRefs (htmlEncode upper s) = true := by
  induction s with
  | nil => rfl
  | cons c rest ih =>
    rw [htmlEncode]
    by_cases hm : classMatches upper c = true
    · rw [if_pos hm]
      have hstart := startsWithCharRef_charRef c (htmlEncode upper rest)
      have h : charRef c ++ htmlEncode upper rest =
          0x26 :: ([0x23] ++ decimal c ++ [0x3B] ++ htmlEncode upper rest) := by
        simp [charRef, show str "&#" = [0x26, 0x23] from rfl, show str ";" = [0x3B] from rfl]
      have hno : 0x26 ∉ [0x23] ++ decimal c ++ [0x3B] := by
        intro hmem
        simp only [List.mem_append, List.mem_singleton] at hmem
        rcases hmem with (h1 | h1) | h1
        · exact absurd h1 (by decide)
        · exact absurd (decimal_digits c _ h1) (by decide)
        · exact absurd h1 (by decide)
      rw [h] at hstart ⊢
      rw [ampersandsAreCharRefs, hstart, ampersandsAreCharRefs_append _ _ hno, ih]
      rfl
    · rw [if_neg hm]
      have hc : c ≠ 0x26 := fun h => hm (h ▸ classMatches_special.1)
      rw [ampersandsAreCharRefs, ih]
      simp [hc]

theorem mem_charRef (c x : Nat) (h : x ∈ charRef c) :
    x = 0x26 ∨ x = 0x23 ∨ x = 0x3B ∨ isDecimalDigit x = true := by
  simp only [charRef, show str "&#" = [0x26, 0x23] from rfl, show str ";" = [0x3B] from rfl,
    List.mem_append, List.mem_cons, List.mem_singleton, List.not_mem_nil, or_false] at h
  rcases h with ((h | h) | h) | h
  · exact Or.inl h
  · exact Or.inr (Or.inl h)
  · exact Or.inr (Or.inr (Or.inr (decimal_digits c x h)))
  · exact Or.inr (Or.inr (Or.inl h))

theorem mem_htmlEncode {upper : Nat → JSString} (s : JSString) (x : Nat)
    (h : x ∈ htmlEncode upper s) :
    (x = 0x26 ∨ x = 0x23 ∨ x = 0x3B ∨ isDecimalDigit x = true) ∨
      (x ∈ s ∧ classMatches upper x = false) := by
  rw [htmlEncode_flatMap, List.mem_flatMap] at h
  obtain ⟨c, hc, hx⟩ := h
  by_cases hm : classMatches upper c = true
  · rw [if_pos hm] at hx
    exact Or.inl (mem_charRef c x hx)
  · rw [if_neg hm, List.mem_singleton] at hx
    subst hx
    exact Or.inr ⟨hc, by simpa using hm⟩

theorem length_charRef (c : Nat) : 4 ≤ (charRef c).length := by
  have hne := decimal_ne_nil c
  have : 0 < (decimal c).length := List.length_pos.mpr hne
  simp [charRef, show str "&#" = [0x26, 0x23] from rfl, show str ";" = [0x3B] from rfl]
  omega

theorem length_htmlEncode {upper : Nat → JSString} (s : JSString) :
    s.length ≤ (htmlEncode upper s).length ∧
      ((∃ c ∈ s, classMatches upper c = true) → s.length < (htmlEncode upper s).length) := by
  induction s with
  | nil => simp [htmlEncode]
  | cons c rest ih =>
    rw [htmlEncode]
    by_cases hm : classMatches upper c = true
    · rw [if_pos hm]
      have := length_charRef c
      simp only [List.length_append, List.length_cons]
      constructor
      · omega
      · intro _; omega
    · rw [if_neg hm]
      simp only [List.length_cons]
      constructor
      · omega
      · rintro ⟨d, hd, hdm⟩
        rcases List.mem_cons.mp hd with rfl | hd
        · exact absurd hdm hm
        · have := ih.2 ⟨d, hd, hdm⟩
          omega

theorem htmlEncode_of_no_match {upper : Nat → JSString} (s : JSString)
    (h : ∀ c ∈ s, classMatches upper c = false) :
    htmlEncode upper s = s := by
  induction s with
  | nil => rfl
  | cons c rest ih =>
    rw [htmlEncode, h c (List.mem_cons_self c rest)]
    simp only [Bool.false_eq_true, if_false]
    rw [ih fun d hd => h d (List.mem_cons_of_mem c hd)]

/-- C18: the result of `htmlEncode` holds no `<`, no `>` and no code unit in
U+00A0..U+9999, every `&` in it starts `&#`, one or more decimal digits and
`;`, and encoding twice gives the same as encoding once exactly when no code
unit of the input is replaced. -/
theorem htmlEncode_output (upper : Nat → JSString) (s : JSString) :
    (∀ x ∈ htmlEncode upper s, x ≠ 0x3C ∧ x ≠ 0x3E ∧ ¬ (0xA0 ≤ x ∧ x ≤ 0x9999)) ∧
      ampersandsAreCharRefs (htmlEncode upper s) = true ∧
      (htmlEncode upper (htmlEncode upper s) = htmlEncode upper s ↔
        ∀ c ∈ s, classMatches upper c = false) := by
  refine ⟨fun x hx => ?_, ampersandsAreCharRefs_htmlEncode s, ?_, ?_⟩
  · rcases mem_htmlEncode s x hx with h | ⟨_, hm⟩
    · have hd : isDecimalDigit x = true → 0x30 ≤ x ∧ x ≤ 0x39 := by
        intro h; simpa [isDecimalDigit] using h
      rcases h with h | h | h | h
      · omega
      · omega
      · omega
      · have := hd h; omega
    · refine ⟨fun h => ?_, fun h => ?_, fun h => ?_⟩
      · rw [h, classMatches_special.2.1] at hm; exact Bool.noConfusion hm
      · rw [h, classMatches_special.2.2] at hm; exact Bool.noConfusion hm
      · rw [classMatches_of_member x (Or.inl h)] at hm; exact Bool.noConfusion hm
  · intro heq c hc
    by_contra hm
    have hm2 : classMatches upper c = true := by simpa using hm
    have hamp : 0x26 ∈ htmlEncode upper s := by
      rw [htmlEncode_flatMap, List.mem_flatMap]
      refine ⟨c, hc, ?_⟩
      rw [if_pos hm2]
      simp [charRef, show str "&#" = [0x26, 0x23] from rfl]
    have := (@length_htmlEncode upper (htmlEncode upper s)).2
      ⟨0x26, hamp, classMatches_special.1⟩
    rw [heq] at this
    exact absurd this (Nat.lt_irrefl _)
  · intro h
    rw [htmlEncode_of_no_match s h, htmlEncode_of_no_match s h]

theorem htmlEncode_example :
    htmlEncode unicode14UpperCase (str "<a>&") = str "&#60;a&#62;&#38;" := by
  have ha : classMatches unicode14UpperCase 0x61 = false :=
    classMatches_ascii unicode14_ascii 0x61 (by omega) (by omega) (by omega) (by omega)
  rw [htmlEncode_flatMap]
  simp only [show str "<a>&" = [0x3C, 0x61, 0x3E, 0x26] from rfl, List.flatMap_cons,
    List.flatMap_nil, classMatches_special.1, classMatches_special.2.1,
    classMatches_special.2.2, ha, if_true, Bool.false_eq_true, if_false]
  decide

/-- C18, witness: the string `<a>&`. -/
theorem htmlEncode_output_witness :
    htmlEncode unicode14UpperCase (str "<a>&") = str "&#60;a&#62;&#38;" ∧
      ampersandsAreCharRefs (str "&#60;a&#62;&#38;") = true ∧
      htmlEncode unicode14UpperCase (htmlEncode unicode14UpperCase (str "<a>&")) ≠
        htmlEncode unicode14UpperCase (str "<a>&") := by
  have h := htmlEncode_output unicode14UpperCase (str "<a>&")
  have e := htmlEncode_example
  refine ⟨e, e ▸ h.2.1, fun heq => ?_⟩
  have := h.2.2.mp heq 0x3C (by decide)
  rw [classMatches_special.2.1] at this
  exact Bool.noConfusion this

theorem hexDigit_unreserved (n : Nat) (h : n < 16) : isUnreserved (hexDigit n) = true := by
  interval_cases n <;> rfl

theorem mem_percentEncodeSpec (data : JSString) (hw : WellFormed data) (x : Nat)
    (hx : x ∈ percentEncodeSpec data) : isUnreserved x = true ∨ x = 0x25 := by
  unfold percentEncodeSpec at hx
  obtain ⟨c, hc, hxc⟩ := List.mem_flatMap.mp hx
  by_cases hu : isUnreserved c = true
  · rw [if_pos hu, List.mem_singleton] at hxc
    exact Or.inl (hxc ▸ hu)
  · rw [if_neg hu] at hxc
    obtain ⟨o, ho, hxo⟩ := List.mem_flatMap.mp hxc
    have hlt := utf8_octets c (hw c hc) o ho
    simp only [percentOctet, List.mem_cons, List.mem_singleton, List.not_mem_nil,
      or_false] at hxo
    rcases hxo with h | h | h
    · exact Or.inr h
    · exact Or.inl (h ▸ hexDigit_unreserved _ (by omega))
    · exact Or.inl (h ▸ hexDigit_unreserved _ (by omega))

theorem isUnreserved_lt (x : Nat) (h : isUnreserved x = true) : x < 128 ∧ x ≠ 0x25 ∧
    x ≠ 0x26 ∧ x ≠ 0x3D := by
  simp only [isUnreserved, decide_eq_true_eq, List.mem_cons, List.mem_singleton,
    List.not_mem_nil, or_false] at h
  omega

theorem percentEncodeSpec_clean (data : JSString) (hw : WellFormed data) :
    WellFormed (percentEncodeSpec data) ∧ NoSurrogates (percentEncodeSpec data) ∧
      0x26 ∉ percentEncodeSpec data ∧ 0x3D ∉ percentEncodeSpec data := by
  have key : ∀ x ∈ percentEncodeSpec data, x < 128 ∧ x ≠ 0x26 ∧ x ≠ 0x3D := by
    intro x hx
    rcases mem_percentEncodeSpec data hw x hx with h | h
    · have := isUnreserved_lt x h; omega
    · omega
  refine ⟨fun x hx => ?_, fun x hx => ?_, fun h => ?_, fun h => ?_⟩
  · have := key x hx; omega
  · have := key x hx; omega
  · exact (key _ h).2.1 rfl
  · exact (key _ h).2.2 rfl

theorem mem_htmlEncode_noSurrogates {upper : Nat → JSString} (s : JSString)
    (hs : NoSurrogates s) :
    NoSurrogates (htmlEncode upper s) := by
  intro x hx
  rcases mem_htmlEncode s x hx with h | ⟨hxs, _⟩
  · have hd : isDecimalDigit x = true → 0x30 ≤ x ∧ x ≤ 0x39 := by
      intro h; simpa [isDecimalDigit] using h
    rcases h with h | h | h | h
    · omega
    · omega
    · omega
    · have := hd h; omega
  · exact hs x hxs

/-- C11: for a data string of 16-bit code units without surrogates and any
encode value, `preprocessData` returns a string and throws nothing. -/
theorem preprocessData_total (upper : Nat → JSString) (data encode : JSString)
    (hw : WellFormed data)
    (hs : NoSurrogates data) : ∃ result, preprocessData upper data encode = .ok result := by
  have h1 := encodeURIComponent_noSurrogates data hs
  have h2 := encodeURIComponent_noSurrogates (percentEncodeSpec data)
    (percentEncodeSpec_clean data hw).2.1
  have h3 := encodeURIComponent_noSurrogates (htmlEncode upper data)
    (mem_htmlEncode_noSurrogates data hs)
  unfold preprocessData
  split_ifs
  · exact ⟨_, h1⟩
  · rw [h1]; exact ⟨_, h2⟩
  · exact ⟨_, rfl⟩
  · exact ⟨_, rfl⟩
  · exact ⟨_, h3⟩
  · exact ⟨_, rfl⟩

/-- C11, witness: a string with characters of every kind under `htmlurl` and
`2url`; a lone surrogate, outside the claim, does throw. -/
theorem preprocessData_total_witness :
    WellFormed (str "<é> &€") ∧ NoSurrogates (str "<é> &€") ∧
      (∃ result,
        preprocessData unicode14UpperCase (str "<é> &€") (str "htmlurl") = .ok result) ∧
      (∃ result,
        preprocessData unicode14UpperCase (str "<é> &€") (str "2url") = .ok result) ∧
      preprocessData unicode14UpperCase [0xD800] (str "url") = .error .uriError :=
  have hw : WellFormed (str "<é> &€") := by decide
  have hs : NoSurrogates (str "<é> &€") := by decide
  ⟨hw, hs, preprocessData_total _ _ _ hw hs, preprocessData_total _ _ _ hw hs, by decide⟩

theorem percentEncodeSpec_twice (data : JSString) (hw : WellFormed data) :
    percentEncodeSpec (percentEncodeSpec data) = replacePercent (percentEncodeSpec data) := by
  rw [percentEncodeSpec.eq_def (percentEncodeSpec data), replacePercent]
  apply List.flatMap_congr
  intro x hx
  rcases mem_percentEncodeSpec data hw x hx with h | h
  · rw [if_pos h, if_neg (isUnreserved_lt x h).2.1]
  · subst h
    decide

theorem length_replacePercent (s : JSString) :
    s.length ≤ (replacePercent s).length ∧
      (0x25 ∈ s → s.length < (replacePercent s).length) := by
  induction s with
  | nil => simp [replacePercent]
  | cons c rest ih =>
    have hcons : replacePercent (c :: rest) =
        (if c = 0x25 then str "%25" else [c]) ++ replacePercent rest := by
      simp [replacePercent]
    rw [hcons]
    by_cases hc : c = 0x25
    · rw [if_pos hc]
      have : (str "%25").length = 3 := rfl
      simp only [List.length_append, List.length_cons, this]
      constructor
      · omega
      · intro _; omega
    · rw [if_neg hc]
      simp only [List.length_append, List.length_cons, List.length_nil]
      constructor
      · omega
      · intro hm
        rcases List.mem_cons.mp hm with h | h
        · exact absurd h.symm hc
        · have := ih.2 h; omega

theorem replacePercent_eq_self (s : JSString) : replacePercent s = s ↔ 0x25 ∉ s := by
  constructor
  · intro h hm
    have := (length_replacePercent s).2 hm
    rw [h] at this
    exact absurd this (Nat.lt_irrefl _)
  · intro h
    induction s with
    | nil => rfl
    | cons c rest ih =>
      have hc : c ≠ 0x25 := fun hc => h (by simp [hc])
      have hr : 0x25 ∉ rest := fun hm => h (List.mem_cons_of_mem c hm)
      have hcons : replacePercent (c :: rest) =
          (if c = 0x25 then str "%25" else [c]) ++ replacePercent rest := by
        simp [replacePercent]
      rw [hcons, if_neg hc, ih hr]
      rfl

theorem utf8_ne_nil (c : Nat) : utf8 c ≠ [] := by
  unfold utf8
  split_ifs <;> simp

theorem percent_mem_percentEncodeSpec (data : JSString) :
    0x25 ∈ percentEncodeSpec data ↔ ∃ c ∈ data, isUnreserved c = false := by
  unfold percentEncodeSpec
  rw [List.mem_flatMap]
  constructor
  · rintro ⟨c, hc, hx⟩
    refine ⟨c, hc, ?_⟩
    cases hu : isUnreserved c with
    | false => rfl
    | true =>
      rw [if_pos hu, List.mem_singleton] at hx
      rw [← hx] at hu
      exact absurd hu (by decide)
  · rintro ⟨c, hc, hu⟩
    refine ⟨c, hc, ?_⟩
    rw [hu]
    simp only [Bool.false_eq_true, if_false]
    cases ho : utf8 c with
    | nil => exact absurd ho (utf8_ne_nil c)
    | cons o os => simp [percentOctet]

/-- C19: for a data string without surrogates, the result for `2url` is the
result for `url` with every `%` replaced by `%25`, and the two are equal
exactly when the data consists of unreserved characters only. -/
theorem preprocessData_2url (upper : Nat → JSString) (V : JSString) (hw : WellFormed V)
    (hs : NoSurrogates V) :
    ∃ once, preprocessData upper V (str "url") = .ok once ∧
      preprocessData upper V (str "2url") = .ok (replacePercent once) ∧
      (replacePercent once = once ↔ ∀ c ∈ V, isUnreserved c = true) := by
  have h1 := encodeURIComponent_noSurrogates V hs
  have h2 := encodeURIComponent_noSurrogates (percentEncodeSpec V)
    (percentEncodeSpec_clean V hw).2.1
  have e1 : str "2url" ≠ str "url" := by decide
  refine ⟨percentEncodeSpec V, ?_, ?_, ?_⟩
  · simp only [preprocessData, if_true]
    exact h1
  · simp only [preprocessData, e1, if_false, if_true]
    rw [h1, ← percentEncodeSpec_twice V hw]
    exact h2
  · rw [replacePercent_eq_self, percent_mem_percentEncodeSpec]
    constructor
    · intro h c hc
      cases hu : isUnreserved c with
      | true => rfl
      | false => exact absurd ⟨c, hc, hu⟩ h
    · rintro h ⟨c, hc, hu⟩
      rw [h c hc] at hu
      exact Bool.noConfusion hu

/-- C19, witness: the string `a b`. -/
theorem preprocessData_2url_witness :
    WellFormed (str "a b") ∧ NoSurrogates (str "a b") ∧
      preprocessData unicode14UpperCase (str "a b") (str "url") = .ok (str "a%20b") ∧
      preprocessData unicode14UpperCase (str "a b") (str "2url") = .ok (str "a%2520b") ∧
      replacePercent (str "a%20b") = str "a%2520b" := by
  have hw : WellFormed (str "a b") := by decide
  have hs : NoSurrogates (str "a b") := by decide
  obtain ⟨once, h1, h2, _⟩ := preprocessData_2url unicode14UpperCase (str "a b") hw hs
  have e : once = str "a%20b" := by
    have : preprocessData unicode14UpperCase (str "a b") (str "url") = .ok (str "a%20b") := by
      decide
    rw [this] at h1
    exact (Except.ok.inj h1).symm
  subst e
  exact ⟨hw, hs, h1, h2.trans (by decide), by decide⟩

theorem generateUrl_bodyurl_join (xmlbuilder : XmlBuilder) (url : JSString)
    (params : List JSString) (data : JSString) :
    generateUrl xmlbuilder url params data (str "bodyurl") =
      .ok (join (params.map fun param => param ++ str "=" ++ data) (str "&")) := by
  have hne : str "bodyurl" ≠ str "url" := by decide
  unfold generateUrl
  simp only [or_true, if_true, hne, false_and, if_false]
  rfl

theorem splitAtFirst_append (before after : JSString) (sep : Nat) (h : sep ∉ before) :
    splitAtFirst (before ++ sep :: after) sep = some (before, after) := by
  have hspan : (before ++ sep :: after).span (fun c => c != sep) = (before, sep :: after) := by
    obtain ⟨h1, h2⟩ := takeWhile_append_stop (fun c => c != sep) before after sep
      (fun x hx => by
        have : x ≠ sep := fun hxs => h (hxs ▸ hx)
        simpa using this)
      (by simp)
    rw [List.span_eq_take_drop, h1, h2]
  unfold splitAtFirst
  rw [hspan]

/-- C20: for a non-empty parameter list whose names hold neither `&` nor `=`
and a data string without surrogates, with `d` the data encoded with `url`,
splitting the `bodyurl` output on `&` and each piece at its first `=` gives
the pair of each parameter and `d`, in order. -/
theorem generateUrl_bodyurl_parse (upper : Nat → JSString) (xmlbuilder : XmlBuilder)
    (url : JSString)
    (params : List JSString) (V : JSString) (hne : params ≠ [])
    (hp : ∀ p ∈ params, 0x26 ∉ p ∧ 0x3D ∉ p) (hw : WellFormed V) (hs : NoSurrogates V) :
    ∃ d query, preprocessData upper V (str "url") = .ok d ∧
      generateUrl xmlbuilder url params d (str "bodyurl") = .ok query ∧
      (split query 0x26).map (fun piece => splitAtFirst piece 0x3D) =
        params.map fun p => some (p, d) := by
  obtain ⟨_, _, hamp, heq⟩ := percentEncodeSpec_clean V hw
  refine ⟨percentEncodeSpec V, _, ?_, generateUrl_bodyurl_join xmlbuilder url params _, ?_⟩
  · simp only [preprocessData, if_true]
    exact encodeURIComponent_noSurrogates V hs
  · have hpieces : ∀ x ∈ params.map (fun param => param ++ str "=" ++ percentEncodeSpec V),
        0x26 ∉ x := by
      intro x hx
      obtain ⟨p, hpm, rfl⟩ := List.mem_map.mp hx
      intro hm
      simp only [List.mem_append] at hm
      rcases hm with (h | h) | h
      · exact (hp p hpm).1 h
      · exact absurd h (by decide)
      · exact hamp h
    rw [show str "&" = [0x26] from rfl, split_join _ 0x26 (by simpa using hne) hpieces,
      List.map_map]
    apply List.map_congr_left
    intro p hpm
    simp only [Function.comp]
    rw [show str "=" = [0x3D] from rfl, List.append_assoc, List.singleton_append]
    exact splitAtFirst_append p _ 0x3D (hp p hpm).2

/-- C20, witness: two parameters and the data `1&2=3`; unencoded, the same
data gives four pieces for two parameters. -/
theorem generateUrl_bodyurl_parse_witness :
    (∀ p ∈ [str "a", str "b"], 0x26 ∉ p ∧ 0x3D ∉ p) ∧
      preprocessData unicode14UpperCase (str "1&2=3") (str "url") = .ok (str "1%262%3D3") ∧
      generateUrl throwingBuilder (str "http://x.com") [str "a", str "b"] (str "1%262%3D3")
          (str "bodyurl") = .ok (str "a=1%262%3D3&b=1%262%3D3") ∧
      (split (str "a=1%262%3D3&b=1%262%3D3") 0x26).map (fun piece => splitAtFirst piece 0x3D) =
        [some (str "a", str "1%262%3D3"), some (str "b", str "1%262%3D3")] ∧
      split (str "a=1&2=3&b=1&2=3") 0x26 = [str "a=1", str "2=3", str "b=1", str "2=3"] := by
  have hp : ∀ p ∈ [str "a", str "b"], 0x26 ∉ p ∧ 0x3D ∉ p := by decide
  obtain ⟨d, query, h1, h2, h3⟩ := generateUrl_bodyurl_parse unicode14UpperCase throwingBuilder
    (str "http://x.com") [str "a", str "b"] (str "1&2=3") (by decide) hp (by decide) (by decide)
  have e1 : preprocessData unicode14UpperCase (str "1&2=3") (str "url") =
      .ok (str "1%262%3D3") := by decide
  have ed : d = str "1%262%3D3" := by
    rw [e1] at h1
    exact (Except.ok.inj h1).symm
  subst ed
  have e2 : generateUrl throwingBuilder (str "http://x.com") [str "a", str "b"]
      (str "1%262%3D3") (str "bodyurl") = .ok (str "a=1%262%3D3&b=1%262%3D3") := by decide
  have eq : query = str "a=1%262%3D3&b=1%262%3D3" := by
    rw [e2] at h2
    exact (Except.ok.inj h2).symm
  subst eq
  exact ⟨hp, h1, h2, h3.trans (by decide), by decide⟩

end Paramaker
